import Mathlib

/-!
SudokuChecker: a shallow embedding of `sudoku.c`.

The C program validates a 9x9 grid with 27 workers (threads, or forked child
processes with `-f`).  Every worker runs one checker on one index and may clear
the shared flag `isValid`.

Conventions of the embedding.

* C `int` values are `Int`.  An access `cF[index]` outside `0..8`, or a grid
  access outside `0..8 x 0..8`, is undefined behaviour in C and is `none` here
  (the only arithmetic is `value - 1` and `index + 1`; `value - 1` can only
  overflow at a value whose flag index is out of bounds anyway).  Where the
  effect of an out-of-range value is the question, the `...Stray` versions of
  the thread checkers follow the machine instead: a flag write outside `0..8`
  leaves the nine flags as they are and is recorded.
* The pointee of `shared_memory` and the lines written to stdout are passed
  explicitly as a `World`.
* A thread (or child process) touches shared state only by writing
  `isValid = false` and by `printf`; each checker is therefore run as one step
  and a schedule is the order in which the checkers are run.
* `bool cF[9];` in the fork checkers is uninitialised: its content on entry is a
  parameter of the checker.
* `fork()` is an oracle: the n-th call of `fork` made by a process returns
  `forks n` in that process.
-/

namespace Sudoku

/-! ## Data -/

/-- The member `int sudoku_array[9][9]`. -/
abbrev Grid := Fin 9 → Fin 9 → Int

/-- The struct `SharedResult`. -/
structure SharedResult where
  isValid : Bool
  parentPID : Int
deriving DecidableEq, Repr

/-- The struct `ThreadInfo`; the pointee of `shared_memory` lives in `World`. -/
structure ThreadInfo where
  index : Int
  sudoku_array : Grid

/-- The three checker bodies a worker can run (`CheckRow`, `CheckCol`, `CheckBox`
and their `...Fork` variants). -/
inductive Checker where
  | Row
  | Col
  | Box
deriving DecidableEq, Repr

/-- The group name inside a diagnostic format string. -/
inductive Label where
  | Row
  | Col
  | Box
deriving DecidableEq, Repr

/-- A line written to stdout.
`diag l n` is `"<l> <n> doesn't have the required values. \n"`,
`valid` is `"The input is a valid Sudoku.\n"`,
`notValid` is `"The input is not a valid Sudoku.\n"`,
`forking` and `threading` are the two mode banners of `main`. -/
inductive Line where
  | diag (l : Label) (n : Int)
  | valid
  | notValid
  | forking
  | threading
deriving DecidableEq, Repr

/-- Shared memory and stdout. -/
structure World where
  shared : SharedResult
  out : List Line
deriving DecidableEq, Repr

/-- The array `bool cF[9]`. -/
abbrev Flags := Fin 9 → Bool

/-- The initialiser `{false, false, false, false, false, false, false, false, false}`. -/
def noFlags : Flags := fun _ => false

/-- The values `lo, lo+1, ..., hi` of a loop `for(int i = lo; i <= hi; i++)`. -/
def upto (lo hi : Int) : List Int :=
  (List.range (hi + 1 - lo).toNat).map (fun (t : Nat) => lo + (t : Int))

/-! ## Array accesses -/

/-- The read `sudoku_array[r][c]`. -/
def readCell (a : Grid) (r c : Int) : Option Int :=
  if h : 0 ≤ r ∧ r < 9 ∧ 0 ≤ c ∧ c < 9 then
    some (a ⟨r.toNat, by omega⟩ ⟨c.toNat, by omega⟩)
  else none

/-- The write `cF[index] = true`. -/
def setFlag (cF : Flags) (index : Int) : Option Flags :=
  if h : 0 ≤ index ∧ index < 9 then
    some (Function.update cF ⟨index.toNat, by omega⟩ true)
  else none

/-- The two statements `int index = sudoku_array[r][c]-1; cF[index] = true;`. -/
def markCell (a : Grid) (cF : Flags) (rc : Int × Int) : Option Flags :=
  (readCell a rc.1 rc.2).bind (fun v => setFlag cF (v - 1))

/-- A marking loop: `markCell` at each cell of `reads`, in order. -/
def markCells (a : Grid) : List (Int × Int) → Flags → Option Flags
  | [], cF => some cF
  | rc :: rest, cF => (markCell a cF rc).bind (markCells a rest)

/-- The condition `(cF[0] == false)| (cF[1] == false)| ... | (cF[8] == false)`. -/
def anyUnset (cF : Flags) : Bool :=
  (cF 0 == false) || (cF 1 == false) || (cF 2 == false) || (cF 3 == false) ||
  (cF 4 == false) || (cF 5 == false) || (cF 6 == false) || (cF 7 == false) ||
  (cF 8 == false)

/-! ## Thread-mode checkers -/

/-- The print loop of the thread checkers:
`for(j = 0; j < 9; j++) if(cF[j] == false){ printf(...); break; }`. -/
def printFirst (cF : Flags) (line : Line) : List (Fin 9) → List Line
  | [] => []
  | j :: js => if cF j = false then [line] else printFirst cF line js

/-- The nine flag indices `0..8` of a print loop. -/
def flagIdx : List (Fin 9) := List.finRange 9

/-- The tail shared by the three thread checkers: the `if` on the flags, the
write `isValid = false` and the print loop with `break`. -/
def judge (cF : Flags) (l : Label) (index : Int) (w : World) : World :=
  if anyUnset cF then
    { shared := { w.shared with isValid := false },
      out := w.out ++ printFirst cF (Line.diag l (index + 1)) flagIdx }
  else w

/-- The cells read by the loop of `CheckRow`: `sudoku_array[i][index]`, i = 0..8. -/
def readsOfCheckRow (index : Int) : List (Int × Int) :=
  (upto 0 8).map (fun i => (i, index))

/-- The cells read by the loop of `CheckCol`: `sudoku_array[index][i]`, i = 0..8. -/
def readsOfCheckCol (index : Int) : List (Int × Int) :=
  (upto 0 8).map (fun i => (index, i))

/-- The nested loops `for(i = rlo; i <= rhi; i++) for(j = clo; j <= chi; j++)`. -/
def block (rlo rhi clo chi : Int) : List (Int × Int) :=
  (upto rlo rhi).flatMap (fun i => (upto clo chi).map (fun j => (i, j)))

/-- The cells read by the ten `if(index == k)` blocks of `CheckBox` and
`CheckBoxFork`, in program order; the block for `index == 1` occurs twice. -/
def boxReads (index : Int) : List (Int × Int) :=
  (if index = 0 then block 0 2 0 2 else []) ++
  (if index = 1 then block 0 2 3 5 else []) ++
  (if index = 1 then block 0 2 3 5 else []) ++
  (if index = 2 then block 0 2 6 8 else []) ++
  (if index = 3 then block 3 5 0 2 else []) ++
  (if index = 4 then block 3 5 3 5 else []) ++
  (if index = 5 then block 3 5 6 8 else []) ++
  (if index = 6 then block 6 8 0 2 else []) ++
  (if index = 7 then block 6 8 3 5 else []) ++
  (if index = 8 then block 6 8 6 8 else [])

/-- The function `CheckRow`: reads column `index`, prints `Col`. -/
def CheckRow (info : ThreadInfo) (w : World) : Option World :=
  (markCells info.sudoku_array (readsOfCheckRow info.index) noFlags).map
    (fun cF => judge cF Label.Col info.index w)

/-- The function `CheckCol`: reads row `index`, prints `Row`. -/
def CheckCol (info : ThreadInfo) (w : World) : Option World :=
  (markCells info.sudoku_array (readsOfCheckCol info.index) noFlags).map
    (fun cF => judge cF Label.Row info.index w)

/-- The function `CheckBox`. -/
def CheckBox (info : ThreadInfo) (w : World) : Option World :=
  (markCells info.sudoku_array (boxReads info.index) noFlags).map
    (fun cF => judge cF Label.Box info.index w)

/-! ## Fork-mode checkers -/

/-- The print loop of the fork checkers (no `break`):
`for(j = 0; j < 9; j++) if(cF[j] == false) printf(...)`. -/
def printAll (cF : Flags) (line : Line) : List (Fin 9) → List Line
  | [] => []
  | j :: js => (if cF j = false then [line] else []) ++ printAll cF line js

/-- The tail of `CheckBoxFork` before `exit(0)`. -/
def judgeFork (cF : Flags) (l : Label) (index : Int) (w : World) : World :=
  if anyUnset cF then
    { shared := { w.shared with isValid := false },
      out := w.out ++ printAll cF (Line.diag l (index + 1)) flagIdx }
  else w

/-- The function `CheckBoxFork` up to its `exit(0)`; `cF0` is the content of the
uninitialised `cF` on entry. -/
def CheckBoxFork (info : ThreadInfo) (cF0 : Flags) (w : World) : Option World :=
  (markCells info.sudoku_array (boxReads info.index) cF0).map
    (fun cF => judgeFork cF Label.Box info.index w)

/-- One iteration `i` of the loop of `CheckRowFork` / `CheckColFork` at cell
`rc`: mark, then `if((i == 8) && (any flag unset))` write and print. -/
def forkIter (a : Grid) (l : Label) (index : Int) (i : Int) (rc : Int × Int)
    (st : Flags × World) : Option (Flags × World) :=
  (markCell a st.1 rc).map (fun cF =>
    if (i == 8) && anyUnset cF then
      (cF, { shared := { st.2.shared with isValid := false },
             out := st.2.out ++ printAll cF (Line.diag l (index + 1)) flagIdx })
    else (cF, st.2))

/-- The loop `for(int i = 0; i < 9; i++)` of `CheckRowFork` / `CheckColFork`;
`cell i` is the cell read at iteration `i`. -/
def forkLoopCells (a : Grid) (l : Label) (index : Int) (cell : Int → Int × Int) :
    List Int → Flags × World → Option (Flags × World)
  | [], st => some st
  | i :: is, st => (forkIter a l index i (cell i) st).bind (forkLoopCells a l index cell is)

/-- The function `CheckRowFork`: reads row `index`, prints `Row`. -/
def CheckRowFork (info : ThreadInfo) (cF0 : Flags) (w : World) : Option World :=
  (forkLoopCells info.sudoku_array Label.Row info.index (fun i => (info.index, i))
    (upto 0 8) (cF0, w)).map Prod.snd

/-- The function `CheckColFork`: reads column `index`, prints `Col`. -/
def CheckColFork (info : ThreadInfo) (cF0 : Flags) (w : World) : Option World :=
  (forkLoopCells info.sudoku_array Label.Col info.index (fun i => (i, info.index))
    (upto 0 8) (cF0, w)).map Prod.snd

/-! ## The thread pool -/

/-- The thread body selected by `pthread_create(.., CheckRow / CheckCol / CheckBox, ..)`. -/
def runThread : Checker → ThreadInfo → World → Option World
  | Checker.Row => CheckRow
  | Checker.Col => CheckCol
  | Checker.Box => CheckBox

/-- One creation loop of `StartThreads`:
`for(i = 0; i <= 8; i++){ temp[i].index = i; pthread_create(.., k, &temp[i]); }`. -/
def spawn (k : Checker) : List (Checker × Int) :=
  (upto 0 8).map (fun i => (k, i))

/-- The threads created by `StartThreads`, in creation order. -/
def threadJobs : List (Checker × Int) :=
  spawn Checker.Row ++ spawn Checker.Col ++ spawn Checker.Box

/-- Runs the threads `jobs` one after the other, each on its own copy of `info`
with `index` set. -/
def runJobs (info : ThreadInfo) : List (Checker × Int) → World → Option World
  | [], w => some w
  | (k, i) :: rest, w =>
    (runThread k { info with index := i } w).bind (runJobs info rest)

/-- The function `StartThreads`: the 27 threads are created and joined; the
schedule is the creation order. -/
def StartThreads (info : ThreadInfo) (w : World) : Option World :=
  runJobs info threadJobs w

/-! ## The process pool -/

/-- The child body called after `fork() == 0`. -/
def runFork : Checker → ThreadInfo → Flags → World → Option World
  | Checker.Row => CheckRowFork
  | Checker.Col => CheckColFork
  | Checker.Box => CheckBoxFork

/-- One process inside `StartProcesses`: the locals `parent` and `temp`, the
number of `fork` calls it has made, the world as this process has changed it,
the checkers it has called, and whether it has called `exit(0)`. -/
structure Proc where
  parent : Int
  calls : Nat
  temp : ThreadInfo
  world : World
  ran : List (Checker × Int)
  exited : Bool

/-- One loop of `StartProcesses`, seen by one process:
`for(int i = 0; i < 9 && parent; i++){ parent = fork(); if(parent == 0){ temp.index = i; Check..Fork(temp); } }`.
Only `CheckBoxFork` ends in `exit(0)`; `CheckRowFork` and `CheckColFork` return
into the loop.  The first argument bounds the number of iterations. -/
def forkLoop (forks : Nat → Int) (cF0 : Flags) (k : Checker) :
    Nat → Int → Proc → Option Proc
  | 0, _, p => some p
  | n + 1, i, p =>
    if p.exited = false ∧ i < 9 ∧ p.parent ≠ 0 then
      let r := forks p.calls
      if r = 0 then
        (runFork k { p.temp with index := i } cF0 p.world).bind (fun w =>
          forkLoop forks cF0 k n (i + 1)
            { parent := r, calls := p.calls + 1, temp := { p.temp with index := i },
              world := w, ran := p.ran ++ [(k, i)], exited := decide (k = Checker.Box) })
      else
        forkLoop forks cF0 k n (i + 1) { p with parent := r, calls := p.calls + 1 }
    else some p

/-- The function `StartProcesses`, seen by one process whose `fork` calls
return `forks 0, forks 1, ...`; `pid` is the value of `getpid()` on entry. -/
def StartProcesses (pid : Int) (forks : Nat → Int) (cF0 : Flags) (info : ThreadInfo)
    (w : World) : Option Proc :=
  (forkLoop forks cF0 Checker.Row 9 0
    { parent := 1, calls := 0, temp := info,
      world := { w with shared := { w.shared with parentPID := pid } },
      ran := [], exited := false }).bind (fun p =>
  (forkLoop forks cF0 Checker.Col 9 0 p).bind (fun p =>
  forkLoop forks cF0 Checker.Box 9 0 p))

/-- The `fork` results seen by the child born at the parent's call number `j`:
the parent's results before that call, then `0`. -/
def childForks (pids : Nat → Int) (j : Nat) : Nat → Int :=
  fun n => if n < j then pids n else 0

/-- The process pool as a whole: the original process runs `StartProcesses`
with fork results `pids`; every call that returned a positive pid created a
child, and the children then run to completion in creation order, child `j`
with `junk j` in its uninitialised flags.  The result is the world once every
child has terminated. -/
def processPool (pid : Int) (pids : Nat → Int) (junk : Nat → Flags) (info : ThreadInfo)
    (w : World) : Option World :=
  (StartProcesses pid pids (junk 0) info w).bind (fun p =>
    ((List.range p.calls).filter (fun j => decide (0 < pids j))).foldlM
      (fun w j => (StartProcesses pid (childForks pids j) (junk j) info w).map Proc.world)
      p.world)

/-! ## The end of `main` -/

/-- The reporting step of `main`:
`if(getpid() == parentPID){ if(isValid != false) printf(valid) else printf(not valid) }`. -/
def report (pid : Int) (s : SharedResult) : List Line :=
  if pid = s.parentPID then
    (if s.isValid != false then [Line.valid] else [Line.notValid])
  else []

/-- The function `main` after the grid has been read, in thread mode. -/
def mainThreads (pid : Int) (grid : Grid) : Option World :=
  (StartThreads { index := 0, sudoku_array := grid }
    { shared := { isValid := true, parentPID := pid }, out := [Line.threading] }).map
    (fun w => { w with out := w.out ++ report pid w.shared })

/-- The reporting step of `main` in a process that leaves `StartProcesses`;
`self` is its `getpid()`.  A process that has called `exit(0)` does not reach it. -/
def endOfMain (self : Int) (p : Proc) : World :=
  if p.exited = true then p.world
  else { shared := p.world.shared, out := p.world.out ++ report self p.world.shared }

/-- The function `main` after the grid has been read, in fork mode, seen by one
process: `pid` is `getpid()` of the original process, `self` is `getpid()` of
the process that reaches the end of `main` (a child has its own pid).  The
world is the one this process itself has produced: `StartProcesses` waits for
no child, so writes of other processes need not have happened yet. -/
def mainFork (pid self : Int) (forks : Nat → Int) (cF0 : Flags) (grid : Grid) :
    Option World :=
  (StartProcesses pid forks cF0 { index := 0, sudoku_array := grid }
    { shared := { isValid := true, parentPID := pid }, out := [Line.forking] }).map
    (endOfMain self)

/-! ## Reference notions used in the statements and proofs -/

/-- The digits `1..9`. -/
def digits : List Int := [1, 2, 3, 4, 5, 6, 7, 8, 9]

/-- The values found at the cells of `reads`, in order. -/
def vals (a : Grid) (reads : List (Int × Int)) : List Int :=
  reads.filterMap (fun rc => readCell a rc.1 rc.2)

/-- Every cell of `reads` is inside the grid and holds a value in `1..9`. -/
def InRange (a : Grid) (reads : List (Int × Int)) : Prop :=
  ∀ rc ∈ reads, ∃ v, readCell a rc.1 rc.2 = some v ∧ 1 ≤ v ∧ v ≤ 9

/-- The flags after marking the values `vs` on top of `cF`. -/
def marked (cF : Flags) (vs : List Int) : Flags :=
  fun j => cF j || decide ((((j : Nat) : Int) + 1) ∈ vs)

/-- The 81 coordinates of the grid, row by row. -/
def allCells : List (Fin 9 × Fin 9) :=
  (List.finRange 9).flatMap (fun r => (List.finRange 9).map (fun c => (r, c)))

/-- The box selector in the words of the specification: box `b` is the block of
rows `3*(b/3) .. 3*(b/3)+2` and columns `3*(b%3) .. 3*(b%3)+2`. -/
def inBox (b : Fin 9) (rc : Fin 9 × Fin 9) : Prop :=
  3 * (b.val / 3) ≤ rc.1.val ∧ rc.1.val ≤ 3 * (b.val / 3) + 2 ∧
  3 * (b.val % 3) ≤ rc.2.val ∧ rc.2.val ≤ 3 * (b.val % 3) + 2

instance (b : Fin 9) (rc : Fin 9 × Fin 9) : Decidable (inBox b rc) := by
  unfold inBox
  infer_instance

/-- Row `i` of the grid: the cells `grid[i][0..8]`. -/
def rowCells (i : Fin 9) : List (Fin 9 × Fin 9) := (List.finRange 9).map (fun c => (i, c))

/-- Column `i` of the grid: the cells `grid[0..8][i]`. -/
def colCells (i : Fin 9) : List (Fin 9 × Fin 9) := (List.finRange 9).map (fun r => (r, i))

/-- Box `b` of the grid, by the selector of the specification. -/
def boxCells (b : Fin 9) : List (Fin 9 × Fin 9) := allCells.filter (fun rc => decide (inBox b rc))

/-- The values of the grid at a list of cells. -/
def valuesAt (a : Grid) (cs : List (Fin 9 × Fin 9)) : List Int := cs.map (fun rc => a rc.1 rc.2)

/-- A group of values contains every digit `1..9` exactly once. -/
def eachDigitOnce (l : List Int) : Prop := ∀ d ∈ digits, l.count d = 1

instance (l : List Int) : Decidable (eachDigitOnce l) := by
  unfold eachDigitOnce
  infer_instance

/-- Every digit `1..9` occurs among the values. -/
def Covers (l : List Int) : Prop := ∀ d ∈ digits, d ∈ l

instance (l : List Int) : Decidable (Covers l) := by
  unfold Covers
  infer_instance

/-- All cells of the grid hold a value in `1..9`. -/
def Filled (a : Grid) : Prop := ∀ r c, 1 ≤ a r c ∧ a r c ≤ 9

instance (a : Grid) : Decidable (Filled a) := by
  unfold Filled
  infer_instance

/-- The coordinates of a cell as C `int`s. -/
def toInts (rc : Fin 9 × Fin 9) : Int × Int := (((rc.1 : Nat) : Int), ((rc.2 : Nat) : Int))

/-- The cells read by the thread checker `k` on `index`. -/
def jobReads : Checker → Int → List (Int × Int)
  | Checker.Row, i => readsOfCheckRow i
  | Checker.Col, i => readsOfCheckCol i
  | Checker.Box, i => boxReads i

/-- The group name the thread checker `k` prints: `CheckRow` prints `Col` and
`CheckCol` prints `Row`. -/
def jobLabel : Checker → Label
  | Checker.Row => Label.Col
  | Checker.Col => Label.Row
  | Checker.Box => Label.Box

/-- The group the thread checker `k` inspects on index `i`: `CheckRow` a
column, `CheckCol` a row, `CheckBox` a box. -/
def jobCells : Checker → Fin 9 → List (Fin 9 × Fin 9)
  | Checker.Row, i => colCells i
  | Checker.Col, i => rowCells i
  | Checker.Box, i => boxCells i

/-- The effect of one thread checker whose group is good (`ok`) or not. -/
def settle (ok : Bool) (line : Line) (w : World) : World :=
  if ok then w
  else { shared := { w.shared with isValid := false }, out := w.out ++ [line] }

/-- The verdict-relevant outcome of a job: does its group contain every digit. -/
def jobOK (a : Grid) (job : Checker × Int) : Bool :=
  decide (Covers (vals a (jobReads job.1 job.2)))

/-- The line a failing job prints. -/
def jobLine (job : Checker × Int) : Line := Line.diag (jobLabel job.1) (job.2 + 1)

/-- The solved grid `grid[r][c] = (3*(r%3) + r/3 + c) % 9 + 1`. -/
def solved : Grid :=
  fun r c => (((3 * (r.val % 3) + r.val / 3 + c.val) % 9 + 1 : Nat) : Int)

/-- The table-driven box selector of the specification, as a read sequence:
rows `3*(b/3) .. 3*(b/3)+2`, columns `3*(b%3) .. 3*(b%3)+2`. -/
def boxTable (b : Int) : List (Int × Int) :=
  block (3 * (b / 3)) (3 * (b / 3) + 2) (3 * (b % 3)) (3 * (b % 3) + 2)

/-- The thread box checker with the table-driven selector in place of the ten
hand-written blocks. -/
def CheckBoxTable (info : ThreadInfo) (w : World) : Option World :=
  (markCells info.sudoku_array (boxTable info.index) noFlags).map
    (fun cF => judge cF Label.Box info.index w)

/-- The fork box checker with the table-driven selector in place of the ten
hand-written blocks. -/
def CheckBoxForkTable (info : ThreadInfo) (cF0 : Flags) (w : World) : Option World :=
  (markCells info.sudoku_array (boxTable info.index) cF0).map
    (fun cF => judgeFork cF Label.Box info.index w)

/-- The solved grid with the out-of-range value 0 in cell (0, 0). -/
def zeroGrid : Grid := fun r c => if r = 0 ∧ c = 0 then 0 else solved r c

/-- The box that contains cell `(r, c)`: `3*(r/3) + c/3`. -/
def boxIndex (r c : Fin 9) : Fin 9 := ⟨3 * (r.val / 3) + c.val / 3, by omega⟩

/-- The solved grid with cell (0, 0) overwritten by the value of cell (0, 1):
row 0, column 0 and box 0 each hold a repeated digit. -/
def dupGrid : Grid := fun r c => if r = 0 ∧ c = 0 then solved 0 1 else solved r c

/-- The state in which `StartProcesses` enters its first loop. -/
def procInit (pid : Int) (info : ThreadInfo) (w : World) : Proc :=
  { parent := 1, calls := 0, temp := info,
    world := { w with shared := { w.shared with parentPID := pid } },
    ran := [], exited := false }

/-- The state of a child after its checker: born in loop `k` at counter `i`,
as call number `c` of `fork`. -/
def childAfter (k : Checker) (i : Int) (c : Nat) (p : Proc) (w : World) : Proc :=
  { parent := 0, calls := c + 1, temp := { p.temp with index := i }, world := w,
    ran := p.ran ++ [(k, i)], exited := decide (k = Checker.Box) }

/-- The loop and counter of the `fork` call number `j` of the original process. -/
def slot (j : Nat) : Checker × Int :=
  (if j < 9 then Checker.Row else if j < 18 then Checker.Col else Checker.Box,
   ((j % 9 : Nat) : Int))

/-- What a worker may do to the world: it never turns a false verdict true,
leaves `parentPID` alone and only appends diagnostic lines to stdout. -/
def Quiet (w w' : World) : Prop :=
  (w.shared.isValid = false → w'.shared.isValid = false) ∧
  w'.shared.parentPID = w.shared.parentPID ∧
  ∃ lines, w'.out = w.out ++ lines ∧ ∀ l ∈ lines, ∃ lab n, l = Line.diag lab n

/-- The cells read by the fork checker `k` on `index`: `CheckRowFork` reads row
`index`, `CheckColFork` column `index`, `CheckBoxFork` the box blocks. -/
def forkReads : Checker → Int → List (Int × Int)
  | Checker.Row, i => readsOfCheckCol i
  | Checker.Col, i => readsOfCheckRow i
  | Checker.Box, i => boxReads i

/-- The group name the fork checker `k` prints. -/
def forkLabel : Checker → Label
  | Checker.Row => Label.Row
  | Checker.Col => Label.Col
  | Checker.Box => Label.Box

/-- The fork results of a parent whose calls all succeed: pids 100, 101, ... -/
def goodPids : Nat → Int := fun n => 100 + (n : Int)

/-- The 27 groups of a grid: row, column and box, each with index 0..8. -/
def allGroups : List (Label × Int) :=
  [Label.Row, Label.Col, Label.Box].flatMap (fun l => (upto 0 8).map (fun i => (l, i)))

/-! ## Further notions: bounds, missing digits, frame, schedules -/

/-- Every access made while marking along `reads` is in bounds: the cell lies
inside the 9x9 grid and the flag index `value - 1` lies in `0..8`. -/
def SafeReads (a : Grid) (reads : List (Int × Int)) : Prop :=
  ∀ rc ∈ reads, (0 ≤ rc.1 ∧ rc.1 ≤ 8 ∧ 0 ≤ rc.2 ∧ rc.2 ≤ 8) ∧
    ∃ v, readCell a rc.1 rc.2 = some v ∧ 0 ≤ v - 1 ∧ v - 1 ≤ 8 ∧
      ∀ cF, ∃ cF', markCell a cF rc = some cF'

/-- The digits of `1..9` that do not occur among the values `vs`. -/
def missing (vs : List Int) : List Int := digits.filter (fun d => decide (d ∉ vs))

/-- The group the fork checker `k` inspects on index `i`: `CheckRowFork` a row,
`CheckColFork` a column, `CheckBoxFork` a box. -/
def forkCells : Checker → Fin 9 → List (Fin 9 × Fin 9)
  | Checker.Row, i => rowCells i
  | Checker.Col, i => colCells i
  | Checker.Box, i => boxCells i

/-- The memory a checker can reach through its argument: the `ThreadInfo`
itself and, through `shared_memory`, the shared result (with stdout). -/
structure Mem where
  info : ThreadInfo
  world : World

/-- A thread checker as a step on the memory it can reach.  No thread checker
contains an assignment to `info0->index` or `info0->sudoku_array`, so the
`ThreadInfo` is handed on as it is. -/
def stepThread (k : Checker) (m : Mem) : Option Mem :=
  (runThread k m.info m.world).map (fun w => { info := m.info, world := w })

/-- A fork checker as a step on the memory it can reach; `info` is its own
by-value copy, to which it never assigns. -/
def stepFork (k : Checker) (cF0 : Flags) (m : Mem) : Option Mem :=
  (runFork k m.info cF0 m.world).map (fun w => { info := m.info, world := w })

/-- The process pool at the moment the original process executes the reporting
step of `main`, in a schedule where exactly the first `k` children (in creation
order) have terminated by then.  `StartProcesses` returns in the parent right
after its last `fork` (its `wait` loop is commented out), so every `k` from 0
to the number of children is a possible schedule. -/
def poolAfter (k : Nat) (pid : Int) (pids : Nat → Int) (junk : Nat → Flags)
    (info : ThreadInfo) (w : World) : Option World :=
  (StartProcesses pid pids (junk 0) info w).bind (fun p =>
    (((List.range p.calls).filter (fun j => decide (0 < pids j))).take k).foldlM
      (fun w j => (StartProcesses pid (childForks pids j) (junk j) info w).map Proc.world)
      p.world)

/-- The verdict line the original process prints in fork mode in the schedule
of `poolAfter k`. -/
def parentReport (k : Nat) (pid : Int) (pids : Nat → Int) (junk : Nat → Flags)
    (grid : Grid) : Option (List Line) :=
  (poolAfter k pid pids junk { index := 0, sudoku_array := grid }
    { shared := { isValid := true, parentPID := pid }, out := [Line.forking] }).map
    (fun w => report pid w.shared)

/-- Fork results of a parent whose first call fails: -1, then pids 101, 102, ... -/
def failingPids : Nat → Int := fun n => if n = 0 then -1 else 100 + (n : Int)

/-- The creation loops of `StartThreads` with the results of `pthread_create`
as an oracle (`created n` is the result of call number `n`, 0 on success).
The code discards the result, so every job is attempted; the function returns
the number of calls made and the threads that exist afterwards. -/
def createLoop (created : Nat → Int) : List (Checker × Int) → Nat → Nat × List (Checker × Int)
  | [], n => (n, [])
  | job :: rest, n =>
    let r := createLoop created rest (n + 1)
    (r.1, if created n = 0 then job :: r.2 else r.2)

/-- The function `StartThreads` with `pthread_create` results `created`: a
failed creation leaves its `pthread_t` unset and the later `pthread_join` on it
is undefined behaviour. -/
def StartThreadsWith (created : Nat → Int) (info : ThreadInfo) (w : World) : Option World :=
  if (createLoop created threadJobs 0).2.length = threadJobs.length then
    runJobs info (createLoop created threadJobs 0).2 w
  else none

/-- Stale flag content in which only `cF[0]` is set. -/
def staleFlag0 : Flags := fun j => decide (j = 0)

/-! ## Stray flag writes and verdict lines -/

/-- The write `cF[index] = true` as the machine performs it.  An index in
`0..8` sets that flag, exactly as `setFlag`.  Any other index is a write
outside the array: the nine flags keep their values and the index is recorded
as a stray write (what the stray write hits is not modelled). -/
def setFlagStray (st : Flags × List Int) (index : Int) : Flags × List Int :=
  match setFlag st.1 index with
  | some cF => (cF, st.2)
  | none => (st.1, st.2 ++ [index])

/-- The two statements `int index = sudoku_array[r][c]-1; cF[index] = true;`
with stray writes recorded. -/
def markCellStray (a : Grid) (st : Flags × List Int) (rc : Int × Int) :
    Option (Flags × List Int) :=
  (readCell a rc.1 rc.2).map (fun v => setFlagStray st (v - 1))

/-- A marking loop with stray writes recorded. -/
def markCellsStray (a : Grid) : List (Int × Int) → Flags × List Int → Option (Flags × List Int)
  | [], st => some st
  | rc :: rest, st => (markCellStray a st rc).bind (markCellsStray a rest)

/-- The function `CheckRow` with stray writes recorded. -/
def CheckRowStray (info : ThreadInfo) (w : World) : Option (World × List Int) :=
  (markCellsStray info.sudoku_array (readsOfCheckRow info.index) (noFlags, [])).map
    (fun st => (judge st.1 Label.Col info.index w, st.2))

/-- The function `CheckCol` with stray writes recorded. -/
def CheckColStray (info : ThreadInfo) (w : World) : Option (World × List Int) :=
  (markCellsStray info.sudoku_array (readsOfCheckCol info.index) (noFlags, [])).map
    (fun st => (judge st.1 Label.Row info.index w, st.2))

/-- The function `CheckBox` with stray writes recorded. -/
def CheckBoxStray (info : ThreadInfo) (w : World) : Option (World × List Int) :=
  (markCellsStray info.sudoku_array (boxReads info.index) (noFlags, [])).map
    (fun st => (judge st.1 Label.Box info.index w, st.2))

/-- The thread body of checker `k` with stray writes recorded. -/
def runThreadStray : Checker → ThreadInfo → World → Option (World × List Int)
  | Checker.Row => CheckRowStray
  | Checker.Col => CheckColStray
  | Checker.Box => CheckBoxStray

/-- The threads `jobs` run one after the other, stray writes collected. -/
def runJobsStray (info : ThreadInfo) :
    List (Checker × Int) → World × List Int → Option (World × List Int)
  | [], s => some s
  | (k, i) :: rest, s =>
    (runThreadStray k { info with index := i } s.1).bind
      (fun r => runJobsStray info rest (r.1, s.2 ++ r.2))

/-- The function `StartThreads` with stray writes recorded. -/
def StartThreadsStray (info : ThreadInfo) (w : World) : Option (World × List Int) :=
  runJobsStray info threadJobs (w, [])

/-- The stray flag indices caused by the values `vs`: `v - 1` for every value
outside `1..9`, in order. -/
def strayOf (vs : List Int) : List Int :=
  (vs.filter (fun v => decide (v < 1 ∨ 9 < v))).map (fun v => v - 1)

/-- Every cell of `reads` is inside the grid. -/
def AllRead (a : Grid) (reads : List (Int × Int)) : Prop :=
  ∀ rc ∈ reads, ∃ v, readCell a rc.1 rc.2 = some v

/-- The solved grid with the out-of-range value 10 in cell (4, 4). -/
def tenGrid : Grid := fun r c => if r = 4 ∧ c = 4 then 10 else solved r c

/-- The number of verdict lines (`valid` or `not valid`) in an output. -/
def verdictLines (out : List Line) : Nat := out.count Line.valid + out.count Line.notValid

/-! ## Theorems -/

/-! ## The marking loop -/

theorem upto_0_8 : upto 0 8 = [0, 1, 2, 3, 4, 5, 6, 7, 8] := by decide

theorem readCell_fin (a : Grid) (r c : Fin 9) :
    readCell a ((r : Nat) : Int) ((c : Nat) : Int) = some (a r c) := by
  have hr := r.isLt
  have hc := c.isLt
  simp [readCell]

theorem setFlag_eq (cF : Flags) (v : Int) (h1 : 1 ≤ v) (h9 : v ≤ 9) :
    setFlag cF (v - 1) = some (marked cF [v]) := by
  unfold setFlag
  rw [dif_pos (by omega)]
  congr 1
  funext j
  have hj := j.isLt
  rw [Function.update_apply]
  by_cases hjv : ((j : Nat) : Int) + 1 = v
  · have hj2 : j = ⟨(v - 1).toNat, by omega⟩ := by
      apply Fin.ext
      simp only
      omega
    rw [if_pos hj2]
    simp [marked, hjv]
  · have hj2 : j ≠ ⟨(v - 1).toNat, by omega⟩ := by
      intro h
      apply hjv
      have := congrArg Fin.val h
      simp only at this
      omega
    rw [if_neg hj2]
    simp [marked, hjv]

theorem setFlag_none (cF : Flags) (v : Int) (h : v < 1 ∨ 9 < v) :
    setFlag cF (v - 1) = none := by
  unfold setFlag
  rw [dif_neg (by omega)]

theorem marked_marked (cF : Flags) (l1 l2 : List Int) :
    marked (marked cF l1) l2 = marked cF (l1 ++ l2) := by
  funext j
  simp [marked, Bool.or_assoc]

theorem marked_nil (cF : Flags) : marked cF [] = cF := by
  funext j
  simp [marked]

theorem markCells_some (a : Grid) (reads : List (Int × Int)) (cF : Flags)
    (h : InRange a reads) : markCells a reads cF = some (marked cF (vals a reads)) := by
  induction reads generalizing cF with
  | nil => simp [markCells, vals, marked_nil]
  | cons rc rest ih =>
    obtain ⟨v, hv, h1, h9⟩ := h rc (List.mem_cons_self _ _)
    have hrest : InRange a rest := fun x hx => h x (List.mem_cons_of_mem _ hx)
    simp only [markCells, markCell, hv, Option.some_bind, setFlag_eq cF v h1 h9]
    rw [ih _ hrest, marked_marked]
    simp [vals, List.filterMap_cons, hv]

theorem markCells_none (a : Grid) (reads : List (Int × Int)) (cF : Flags)
    (h : ¬ InRange a reads) : markCells a reads cF = none := by
  induction reads generalizing cF with
  | nil => exact absurd (fun x hx => by simp at hx) h
  | cons rc rest ih =>
    simp only [markCells, markCell]
    cases hv : readCell a rc.1 rc.2 with
    | none => simp
    | some v =>
      by_cases hr : 1 ≤ v ∧ v ≤ 9
      · simp only [Option.some_bind, setFlag_eq cF v hr.1 hr.2]
        apply ih
        intro hrest
        apply h
        intro x hx
        rcases List.mem_cons.1 hx with rfl | hx
        · exact ⟨v, hv, hr.1, hr.2⟩
        · exact hrest x hx
      · simp only [Option.some_bind]
        rw [setFlag_none cF v (by omega)]
        rfl

theorem anyUnset_eq_false (cF : Flags) : anyUnset cF = false ↔ ∀ j, cF j = true := by
  unfold anyUnset
  constructor
  · intro h j
    simp only [Bool.or_eq_false_iff, beq_eq_false_iff_ne, ne_eq, Bool.not_eq_false] at h
    fin_cases j <;> simp_all
  · intro h
    simp [h]

theorem all_marked_iff (vs : List Int) :
    (∀ j, marked noFlags vs j = true) ↔ ∀ d ∈ digits, d ∈ vs := by
  simp only [marked, noFlags, Bool.false_or, decide_eq_true_eq]
  constructor
  · intro h d hd
    simp only [digits, List.mem_cons, List.mem_singleton, List.not_mem_nil, or_false] at hd
    rcases hd with rfl | rfl | rfl | rfl | rfl | rfl | rfl | rfl | rfl
    · exact h 0
    · exact h 1
    · exact h 2
    · exact h 3
    · exact h 4
    · exact h 5
    · exact h 6
    · exact h 7
    · exact h 8
  · intro h j
    apply h
    fin_cases j <;> simp [digits]

/-! ## Groups of nine values -/

theorem digits_nodup : digits.Nodup := by decide

theorem covers_iff_perm (l : List Int) (hl : l.length = 9) : Covers l ↔ l.Perm digits := by
  constructor
  · intro h
    have hs : digits ⊆ l := fun d hd => h d hd
    have hp := (List.subperm_of_subset digits_nodup hs).perm_of_length_le (by simp [hl, digits])
    exact hp.symm
  · intro h d hd
    exact h.symm.subset hd

theorem perm_iff_once (l : List Int) (hl : l.length = 9) :
    l.Perm digits ↔ eachDigitOnce l := by
  constructor
  · intro h d hd
    rw [h.count_eq]
    exact List.count_eq_one_of_mem digits_nodup hd
  · intro h
    apply (covers_iff_perm l hl).1
    intro d hd
    have := h d hd
    exact List.count_pos_iff.1 (by omega)

theorem perm_iff_nodup (l : List Int) (hl : l.length = 9)
    (hr : ∀ v ∈ l, 1 ≤ v ∧ v ≤ 9) : l.Perm digits ↔ l.Nodup := by
  constructor
  · intro h
    exact h.nodup_iff.2 digits_nodup
  · intro h
    have hs : l ⊆ digits := by
      intro v hv
      obtain ⟨h1, h9⟩ := hr v hv
      simp only [digits, List.mem_cons, List.mem_singleton, List.not_mem_nil, or_false]
      omega
    exact (List.subperm_of_subset h hs).perm_of_length_le (by simp [hl, digits])

/-! ## The cells read by the checkers -/

theorem vals_toInts (a : Grid) (cs : List (Fin 9 × Fin 9)) :
    vals a (cs.map toInts) = valuesAt a cs := by
  induction cs with
  | nil => rfl
  | cons rc rest ih =>
    have := readCell_fin a rc.1 rc.2
    simp only [vals, valuesAt, List.map_cons, List.filterMap_cons, toInts, this] at ih ⊢
    rw [ih]

theorem inRange_toInts (a : Grid) (ha : Filled a) (cs : List (Fin 9 × Fin 9)) :
    InRange a (cs.map toInts) := by
  intro rc hrc
  obtain ⟨x, _, rfl⟩ := List.mem_map.1 hrc
  exact ⟨a x.1 x.2, readCell_fin a x.1 x.2, ha x.1 x.2⟩

theorem readsOfCheckRow_eq : ∀ i : Fin 9, readsOfCheckRow ((i : Nat) : Int) = (colCells i).map toInts := by
  decide

theorem readsOfCheckCol_eq : ∀ i : Fin 9, readsOfCheckCol ((i : Nat) : Int) = (rowCells i).map toInts := by
  decide

theorem boxReads_eq : ∀ b : Fin 9,
    boxReads ((b : Nat) : Int) = (boxCells b).map toInts ∨
    boxReads ((b : Nat) : Int) = (boxCells b).map toInts ++ (boxCells b).map toInts := by
  decide

/-! ## Thread checkers and the thread pool -/

theorem runThread_eq (k : Checker) (info : ThreadInfo) (w : World) :
    runThread k info w =
      (markCells info.sudoku_array (jobReads k info.index) noFlags).map
        (fun cF => judge cF (jobLabel k) info.index w) := by
  cases k <;> rfl

theorem printFirst_eq (cF : Flags) (line : Line) (js : List (Fin 9)) :
    printFirst cF line js = if ∃ j ∈ js, cF j = false then [line] else [] := by
  induction js with
  | nil => simp [printFirst]
  | cons j js ih =>
    simp only [printFirst, List.mem_cons, exists_eq_or_imp]
    by_cases hj : cF j = false
    · simp [hj]
    · simp [hj, ih]

theorem mem_flagIdx (j : Fin 9) : j ∈ flagIdx := List.mem_finRange j

theorem judge_eq (cF : Flags) (l : Label) (index : Int) (w : World) :
    judge cF l index w = settle (decide (∀ j, cF j = true)) (Line.diag l (index + 1)) w := by
  unfold judge settle
  by_cases h : ∀ j, cF j = true
  · have hu : anyUnset cF = false := (anyUnset_eq_false cF).2 h
    simp [hu, h]
  · have hu : anyUnset cF = true := by
      cases hb : anyUnset cF with
      | true => rfl
      | false => exact absurd ((anyUnset_eq_false cF).1 hb) h
    have hex : ∃ j ∈ flagIdx, cF j = false := by
      by_contra hne
      apply h
      intro j
      cases hc : cF j with
      | true => rfl
      | false => exact absurd ⟨j, mem_flagIdx j, hc⟩ hne
    rw [printFirst_eq, if_pos hex]
    simp [hu, h]

theorem runThread_some (a : Grid) (k : Checker) (i : Int) (w : World)
    (h : InRange a (jobReads k i)) :
    runThread k { index := i, sudoku_array := a } w =
      some (settle (decide (Covers (vals a (jobReads k i))))
        (Line.diag (jobLabel k) (i + 1)) w) := by
  rw [runThread_eq]
  simp only [markCells_some a _ noFlags h, Option.map_some', judge_eq]
  congr 2
  exact decide_eq_decide.2 (all_marked_iff _)

theorem runThread_none (a : Grid) (k : Checker) (i : Int) (w : World)
    (h : ¬ InRange a (jobReads k i)) :
    runThread k { index := i, sudoku_array := a } w = none := by
  rw [runThread_eq]
  simp only [markCells_none a _ noFlags h, Option.map_none']

theorem runJobs_some (a : Grid) (x : Int) (jobs : List (Checker × Int)) (w : World)
    (h : ∀ job ∈ jobs, InRange a (jobReads job.1 job.2)) :
    runJobs { index := x, sudoku_array := a } jobs w =
      some { shared := { isValid := w.shared.isValid && jobs.all (jobOK a),
                         parentPID := w.shared.parentPID },
             out := w.out ++ jobs.flatMap
               (fun job => if jobOK a job then [] else [jobLine job]) } := by
  induction jobs generalizing w with
  | nil => simp [runJobs]
  | cons job rest ih =>
    obtain ⟨k, i⟩ := job
    have hk := h (k, i) (List.mem_cons_self _ _)
    have hrest : ∀ job ∈ rest, InRange a (jobReads job.1 job.2) :=
      fun j hj => h j (List.mem_cons_of_mem _ hj)
    simp only [runJobs, runThread_some a k i w hk, Option.some_bind]
    rw [ih _ hrest]
    by_cases hok : Covers (vals a (jobReads k i))
    · simp [settle, jobOK, hok]
    · simp [settle, jobOK, hok, jobLine]

theorem runJobs_none (a : Grid) (x : Int) (jobs : List (Checker × Int)) (w : World)
    (h : ∃ job ∈ jobs, ¬ InRange a (jobReads job.1 job.2)) :
    runJobs { index := x, sudoku_array := a } jobs w = none := by
  induction jobs generalizing w with
  | nil => simp at h
  | cons job rest ih =>
    obtain ⟨k, i⟩ := job
    by_cases hk : InRange a (jobReads k i)
    · simp only [runJobs, runThread_some a k i w hk, Option.some_bind]
      apply ih
      obtain ⟨j, hj, hbad⟩ := h
      rcases List.mem_cons.1 hj with rfl | hj
      · exact absurd hk hbad
      · exact ⟨j, hj, hbad⟩
    · simp only [runJobs, runThread_none a k i w hk, Option.none_bind]

theorem jobReads_eq (k : Checker) (i : Fin 9) :
    jobReads k ((i : Nat) : Int) = (jobCells k i).map toInts ∨
    jobReads k ((i : Nat) : Int) = (jobCells k i).map toInts ++ (jobCells k i).map toInts := by
  cases k
  · exact Or.inl (readsOfCheckRow_eq i)
  · exact Or.inl (readsOfCheckCol_eq i)
  · exact boxReads_eq i

theorem length_jobCells (k : Checker) (i : Fin 9) : (jobCells k i).length = 9 := by
  cases k
  · simp [jobCells, colCells]
  · simp [jobCells, rowCells]
  · revert i
    decide

theorem inRange_job (a : Grid) (ha : Filled a) (k : Checker) (i : Fin 9) :
    InRange a (jobReads k ((i : Nat) : Int)) := by
  rcases jobReads_eq k i with h | h
  · rw [h]
    exact inRange_toInts a ha _
  · rw [h, ← List.map_append]
    exact inRange_toInts a ha _

theorem covers_job (a : Grid) (k : Checker) (i : Fin 9) :
    Covers (vals a (jobReads k ((i : Nat) : Int))) ↔ Covers (valuesAt a (jobCells k i)) := by
  rcases jobReads_eq k i with h | h
  · rw [h, vals_toInts]
  · rw [h]
    simp only [vals, List.filterMap_append]
    have := vals_toInts a (jobCells k i)
    simp only [vals] at this
    rw [this]
    simp [Covers]

theorem length_valuesAt (a : Grid) (k : Checker) (i : Fin 9) :
    (valuesAt a (jobCells k i)).length = 9 := by
  simp [valuesAt, length_jobCells]

theorem jobOK_iff (a : Grid) (k : Checker) (i : Fin 9) :
    jobOK a (k, ((i : Nat) : Int)) = true ↔ eachDigitOnce (valuesAt a (jobCells k i)) := by
  simp only [jobOK, decide_eq_true_eq]
  rw [covers_job, covers_iff_perm _ (length_valuesAt a k i),
    perm_iff_once _ (length_valuesAt a k i)]

theorem threadJobs_index : ∀ job ∈ threadJobs, ∃ i : Fin 9, job.2 = ((i : Nat) : Int) := by
  decide

theorem threadJobs_all : ∀ (i : Fin 9),
    (Checker.Row, ((i : Nat) : Int)) ∈ threadJobs ∧
    (Checker.Col, ((i : Nat) : Int)) ∈ threadJobs ∧
    (Checker.Box, ((i : Nat) : Int)) ∈ threadJobs := by
  decide

theorem inRange_of_mem (a : Grid) (ha : Filled a) (jobs : List (Checker × Int))
    (hsub : ∀ job ∈ jobs, job ∈ threadJobs) :
    ∀ job ∈ jobs, InRange a (jobReads job.1 job.2) := by
  intro job hj
  obtain ⟨i, hi⟩ := threadJobs_index job (hsub job hj)
  rw [hi]
  exact inRange_job a ha job.1 i

theorem all_jobOK_iff (a : Grid) :
    threadJobs.all (jobOK a) = true ↔
      (∀ i, eachDigitOnce (valuesAt a (rowCells i))) ∧
      (∀ i, eachDigitOnce (valuesAt a (colCells i))) ∧
      (∀ b, eachDigitOnce (valuesAt a (boxCells b))) := by
  rw [List.all_eq_true]
  constructor
  · intro h
    refine ⟨fun i => ?_, fun i => ?_, fun i => ?_⟩
    · exact (jobOK_iff a Checker.Col i).1 (h _ (threadJobs_all i).2.1)
    · exact (jobOK_iff a Checker.Row i).1 (h _ (threadJobs_all i).1)
    · exact (jobOK_iff a Checker.Box i).1 (h _ (threadJobs_all i).2.2)
  · rintro ⟨hr, hc, hb⟩ ⟨k, n⟩ hj
    obtain ⟨i, hi⟩ := threadJobs_index _ hj
    simp only at hi
    subst hi
    apply (jobOK_iff a k i).2
    cases k
    · exact hc i
    · exact hr i
    · exact hb i

/-- C1. For every 9x9 grid with all cells in 1..9, `StartThreads` started with
`isValid = true` returns, and leaves `isValid` true exactly when every row,
every column and every 3x3 box contains each digit 1..9 exactly once. -/
theorem C1_threads_verdict (a : Grid) (ha : Filled a) (x pid : Int) (out : List Line) :
    ∃ w', StartThreads { index := x, sudoku_array := a }
        { shared := { isValid := true, parentPID := pid }, out := out } = some w' ∧
      (w'.shared.isValid = true ↔
        (∀ i, eachDigitOnce (valuesAt a (rowCells i))) ∧
        (∀ i, eachDigitOnce (valuesAt a (colCells i))) ∧
        (∀ b, eachDigitOnce (valuesAt a (boxCells b)))) := by
  refine ⟨_, runJobs_some a x threadJobs _ (inRange_of_mem a ha _ (fun _ h => h)), ?_⟩
  simp only [Bool.true_and]
  exact all_jobOK_iff a

theorem C1_threads_verdict_witness :
    Filled solved ∧
    ∃ w', StartThreads { index := 0, sudoku_array := solved }
        { shared := { isValid := true, parentPID := 7 }, out := [] } = some w' ∧
      (w'.shared.isValid = true ↔
        (∀ i, eachDigitOnce (valuesAt solved (rowCells i))) ∧
        (∀ i, eachDigitOnce (valuesAt solved (colCells i))) ∧
        (∀ b, eachDigitOnce (valuesAt solved (boxCells b)))) :=
  ⟨by decide, C1_threads_verdict solved (by decide) 0 7 []⟩

/-! ## The box selector -/

theorem mem_upto (lo hi x : Int) : x ∈ upto lo hi ↔ lo ≤ x ∧ x ≤ hi := by
  simp only [upto, List.mem_map, List.mem_range]
  constructor
  · rintro ⟨t, ht, rfl⟩
    omega
  · intro h
    exact ⟨(x - lo).toNat, by omega, by omega⟩

theorem mem_block (rlo rhi clo chi r c : Int) :
    (r, c) ∈ block rlo rhi clo chi ↔ rlo ≤ r ∧ r ≤ rhi ∧ clo ≤ c ∧ c ≤ chi := by
  simp only [block, List.mem_flatMap, List.mem_map, mem_upto, Prod.mk.injEq]
  constructor
  · rintro ⟨i, hi, j, hj, rfl, rfl⟩
    omega
  · intro h
    exact ⟨r, by omega, c, by omega, rfl, rfl⟩

theorem boxReads_table (b : Int) (h0 : 0 ≤ b) (h8 : b ≤ 8) :
    boxReads b = boxTable b ∨ boxReads b = boxTable b ++ boxTable b := by
  have hb : b = 0 ∨ b = 1 ∨ b = 2 ∨ b = 3 ∨ b = 4 ∨ b = 5 ∨ b = 6 ∨ b = 7 ∨ b = 8 := by omega
  rcases hb with rfl | rfl | rfl | rfl | rfl | rfl | rfl | rfl | rfl <;> decide

theorem boxReads_dedup (b : Int) (h0 : 0 ≤ b) (h8 : b ≤ 8) :
    (boxReads b).dedup = boxTable b ∧ (boxTable b).length = 9 := by
  have hb : b = 0 ∨ b = 1 ∨ b = 2 ∨ b = 3 ∨ b = 4 ∨ b = 5 ∨ b = 6 ∨ b = 7 ∨ b = 8 := by omega
  rcases hb with rfl | rfl | rfl | rfl | rfl | rfl | rfl | rfl | rfl <;> decide

theorem inRange_append (a : Grid) (l1 l2 : List (Int × Int)) :
    InRange a (l1 ++ l2) ↔ InRange a l1 ∧ InRange a l2 := by
  simp only [InRange, List.mem_append]
  constructor
  · intro h
    exact ⟨fun rc hrc => h rc (Or.inl hrc), fun rc hrc => h rc (Or.inr hrc)⟩
  · rintro ⟨h1, h2⟩ rc (hrc | hrc)
    · exact h1 rc hrc
    · exact h2 rc hrc

theorem markCells_double (a : Grid) (l : List (Int × Int)) (cF : Flags) :
    markCells a (l ++ l) cF = markCells a l cF := by
  by_cases h : InRange a l
  · rw [markCells_some a l cF h, markCells_some a (l ++ l) cF ((inRange_append a l l).2 ⟨h, h⟩)]
    have hv : vals a (l ++ l) = vals a l ++ vals a l := List.filterMap_append _ _ _
    congr 1
    funext j
    simp only [marked, hv, List.mem_append, or_self]
  · rw [markCells_none a l cF h,
      markCells_none a (l ++ l) cF (fun hh => h ((inRange_append a l l).1 hh).1)]

theorem markCells_boxTable (a : Grid) (b : Int) (h0 : 0 ≤ b) (h8 : b ≤ 8) (cF : Flags) :
    markCells a (boxReads b) cF = markCells a (boxTable b) cF := by
  rcases boxReads_table b h0 h8 with h | h
  · rw [h]
  · rw [h, markCells_double]

/-- C3. For every box index b in 0..8 the cells read by the branches of
`CheckBox` / `CheckBoxFork` (the `index == 1` branch twice) are exactly the 9
cells with rows 3*(b/3)..3*(b/3)+2 and columns 3*(b%3)..3*(b%3)+2, and both box
checkers compute the same result as their table-driven versions. -/
theorem C3_box_selector (b : Int) (h0 : 0 ≤ b) (h8 : b ≤ 8) :
    (∀ r c : Int, (r, c) ∈ boxReads b ↔
      3 * (b / 3) ≤ r ∧ r ≤ 3 * (b / 3) + 2 ∧ 3 * (b % 3) ≤ c ∧ c ≤ 3 * (b % 3) + 2) ∧
    (boxReads b).dedup = boxTable b ∧ (boxReads b).dedup.length = 9 ∧
    (∀ (a : Grid) (w : World),
      CheckBox { index := b, sudoku_array := a } w =
        CheckBoxTable { index := b, sudoku_array := a } w) ∧
    (∀ (a : Grid) (cF0 : Flags) (w : World),
      CheckBoxFork { index := b, sudoku_array := a } cF0 w =
        CheckBoxForkTable { index := b, sudoku_array := a } cF0 w) := by
  refine ⟨fun r c => ?_, (boxReads_dedup b h0 h8).1, ?_, fun a w => ?_, fun a cF0 w => ?_⟩
  · rw [← mem_block]
    rcases boxReads_table b h0 h8 with h | h
    · rw [h]
      rfl
    · rw [h, List.mem_append, or_self]
      rfl
  · rw [(boxReads_dedup b h0 h8).1]
    exact (boxReads_dedup b h0 h8).2
  · simp only [CheckBox, CheckBoxTable, markCells_boxTable a b h0 h8]
  · simp only [CheckBoxFork, CheckBoxForkTable, markCells_boxTable a b h0 h8]

theorem C3_box_selector_witness :
    (0 : Int) ≤ 1 ∧ (1 : Int) ≤ 8 ∧
    (∀ r c : Int, (r, c) ∈ boxReads 1 ↔
      3 * (1 / 3) ≤ r ∧ r ≤ 3 * (1 / 3) + 2 ∧ 3 * (1 % 3) ≤ c ∧ c ≤ 3 * (1 % 3) + 2) ∧
    (boxReads 1).dedup = boxTable 1 ∧ (boxReads 1).dedup.length = 9 ∧
    (∀ (a : Grid) (w : World),
      CheckBox { index := 1, sudoku_array := a } w =
        CheckBoxTable { index := 1, sudoku_array := a } w) ∧
    (∀ (a : Grid) (cF0 : Flags) (w : World),
      CheckBoxFork { index := 1, sudoku_array := a } cF0 w =
        CheckBoxForkTable { index := 1, sudoku_array := a } cF0 w) :=
  ⟨by decide, by decide, C3_box_selector 1 (by decide) (by decide)⟩

/-! ## The unit checker -/

theorem checker_unit (a : Grid) (k : Checker) (i : Fin 9) (w : World)
    (h : ∀ v ∈ valuesAt a (jobCells k i), 1 ≤ v ∧ v ≤ 9) :
    ∃ cF, markCells a (jobReads k ((i : Nat) : Int)) noFlags = some cF ∧
      ((∀ j, cF j = true) ↔ (valuesAt a (jobCells k i)).Perm digits) ∧
      ((valuesAt a (jobCells k i)).Perm digits ↔ (valuesAt a (jobCells k i)).Nodup) ∧
      runThread k { index := ((i : Nat) : Int), sudoku_array := a } w =
        some (judge cF (jobLabel k) ((i : Nat) : Int) w) ∧
      ((∀ j, cF j = true) → judge cF (jobLabel k) ((i : Nat) : Int) w = w) ∧
      ((∃ j, cF j = false) →
        (judge cF (jobLabel k) ((i : Nat) : Int) w).shared.isValid = false) := by
  have hin : InRange a (jobReads k ((i : Nat) : Int)) := by
    have hc : InRange a ((jobCells k i).map toInts) := by
      intro rc hrc
      obtain ⟨x, hx, rfl⟩ := List.mem_map.1 hrc
      exact ⟨a x.1 x.2, readCell_fin a x.1 x.2, h _ (List.mem_map.2 ⟨x, hx, rfl⟩)⟩
    rcases jobReads_eq k i with e | e
    · rw [e]
      exact hc
    · rw [e]
      exact (inRange_append a _ _).2 ⟨hc, hc⟩
  have hm := markCells_some a _ noFlags hin
  refine ⟨_, hm, ?_, perm_iff_nodup _ (length_valuesAt a k i) h, ?_, ?_, ?_⟩
  · rw [all_marked_iff]
    exact (covers_job a k i).trans (covers_iff_perm _ (length_valuesAt a k i))
  · rw [runThread_eq]
    simp only [hm, Option.map_some']
  · intro hall
    rw [judge_eq]
    simp [settle, hall]
  · rintro ⟨j, hj⟩
    rw [judge_eq]
    have : ¬ ∀ j, marked noFlags (vals a (jobReads k ((i : Nat) : Int))) j = true :=
      fun hall => by simp [hall j] at hj
    simp [settle, this]

/-- C2. For every group of 9 cell values in 1..9 (a column read by `CheckRow`, a
row read by `CheckCol`), the marking loop started from all-false flags ends
with all nine flags set exactly when the values are a permutation of 1..9,
which is exactly when no value is repeated; the checker then leaves the world
untouched when all flags are set and writes `isValid = false` when one is not. -/
theorem C2_unit_checker (a : Grid) (i : Fin 9) (w : World) :
    ((∀ v ∈ valuesAt a (colCells i), 1 ≤ v ∧ v ≤ 9) →
      ∃ cF, markCells a (readsOfCheckRow ((i : Nat) : Int)) noFlags = some cF ∧
        ((∀ j, cF j = true) ↔ (valuesAt a (colCells i)).Perm digits) ∧
        ((valuesAt a (colCells i)).Perm digits ↔ (valuesAt a (colCells i)).Nodup) ∧
        CheckRow { index := ((i : Nat) : Int), sudoku_array := a } w =
          some (judge cF Label.Col ((i : Nat) : Int) w) ∧
        ((∀ j, cF j = true) → judge cF Label.Col ((i : Nat) : Int) w = w) ∧
        ((∃ j, cF j = false) →
          (judge cF Label.Col ((i : Nat) : Int) w).shared.isValid = false)) ∧
    ((∀ v ∈ valuesAt a (rowCells i), 1 ≤ v ∧ v ≤ 9) →
      ∃ cF, markCells a (readsOfCheckCol ((i : Nat) : Int)) noFlags = some cF ∧
        ((∀ j, cF j = true) ↔ (valuesAt a (rowCells i)).Perm digits) ∧
        ((valuesAt a (rowCells i)).Perm digits ↔ (valuesAt a (rowCells i)).Nodup) ∧
        CheckCol { index := ((i : Nat) : Int), sudoku_array := a } w =
          some (judge cF Label.Row ((i : Nat) : Int) w) ∧
        ((∀ j, cF j = true) → judge cF Label.Row ((i : Nat) : Int) w = w) ∧
        ((∃ j, cF j = false) →
          (judge cF Label.Row ((i : Nat) : Int) w).shared.isValid = false)) :=
  ⟨checker_unit a Checker.Row i w, checker_unit a Checker.Col i w⟩

theorem C2_unit_checker_witness :
    (∀ v ∈ valuesAt solved (colCells 4), 1 ≤ v ∧ v ≤ 9) ∧
    (∀ v ∈ valuesAt solved (rowCells 4), 1 ≤ v ∧ v ≤ 9) ∧
    (∃ cF, markCells solved (readsOfCheckRow 4) noFlags = some cF ∧ ∀ j, cF j = true) ∧
    (∃ cF, markCells solved (readsOfCheckCol 4) noFlags = some cF ∧ ∀ j, cF j = true) := by
  have h := C2_unit_checker solved 4 { shared := { isValid := true, parentPID := 7 }, out := [] }
  have hc : ∀ v ∈ valuesAt solved (colCells 4), 1 ≤ v ∧ v ≤ 9 := by decide
  have hr : ∀ v ∈ valuesAt solved (rowCells 4), 1 ≤ v ∧ v ≤ 9 := by decide
  obtain ⟨cF, h1, h2, -⟩ := h.1 hc
  obtain ⟨cF', h1', h2', -⟩ := h.2 hr
  exact ⟨hc, hr, ⟨cF, h1, h2.2 (by decide)⟩, ⟨cF', h1', h2'.2 (by decide)⟩⟩

/-! ## Values outside 1..9 -/

theorem not_inRange_of_bad (a : Grid) (r c : Fin 9) (h : a r c < 1 ∨ 9 < a r c)
    (reads : List (Int × Int)) (hmem : toInts (r, c) ∈ reads) : ¬ InRange a reads := by
  intro hin
  obtain ⟨v, hv, h1, h9⟩ := hin _ hmem
  have := readCell_fin a r c
  simp only [toInts] at hv
  rw [this] at hv
  cases hv
  omega

theorem mem_reads_row : ∀ r c : Fin 9, toInts (r, c) ∈ readsOfCheckRow ((c : Nat) : Int) := by
  decide

theorem mem_reads_col : ∀ r c : Fin 9, toInts (r, c) ∈ readsOfCheckCol ((r : Nat) : Int) := by
  decide

theorem mem_reads_box : ∀ r c : Fin 9,
    toInts (r, c) ∈ boxReads (((boxIndex r c : Fin 9) : Nat) : Int) ∧ inBox (boxIndex r c) (r, c) := by
  decide

/-! ## Diagnostics of the thread pool -/

theorem jobLine_inj (j1 j2 : Checker × Int) : jobLine j1 = jobLine j2 ↔ j1 = j2 := by
  obtain ⟨k1, i1⟩ := j1
  obtain ⟨k2, i2⟩ := j2
  constructor
  · intro h
    simp only [jobLine, Line.diag.injEq] at h
    obtain ⟨hl, hi⟩ := h
    have hk : k1 = k2 := by
      cases k1 <;> cases k2 <;> simp [jobLabel] at hl <;> rfl
    have hi' : i1 = i2 := by omega
    rw [hk, hi']
  · intro h
    rw [h]

theorem count_lines (a : Grid) (jobs : List (Checker × Int)) (hnd : jobs.Nodup)
    (job0 : Checker × Int) :
    (jobs.flatMap (fun job => if jobOK a job then [] else [jobLine job])).count (jobLine job0) =
      if job0 ∈ jobs ∧ jobOK a job0 = false then 1 else 0 := by
  induction jobs with
  | nil => simp
  | cons job rest ih =>
    have hnd' := (List.nodup_cons.1 hnd)
    rw [List.flatMap_cons, List.count_append, ih hnd'.2]
    by_cases hj : job = job0
    · subst hj
      by_cases hok : jobOK a job = true
      · simp [hok]
      · simp [hok, hnd'.1]
    · have hne : ¬ jobLine job = jobLine job0 := fun h => hj ((jobLine_inj _ _).1 h)
      have hj' : ¬ job0 = job := fun h => hj h.symm
      by_cases hok : jobOK a job = true
      · simp [hok, hj']
      · simp [hok, hj', List.count_cons, hne]

theorem threadJobs_nodup : threadJobs.Nodup := by decide

theorem jobOK_iff_perm (a : Grid) (k : Checker) (i : Fin 9) :
    jobOK a (k, ((i : Nat) : Int)) = true ↔ (valuesAt a (jobCells k i)).Perm digits := by
  rw [jobOK_iff, perm_iff_once _ (length_valuesAt a k i)]

theorem count_job (a : Grid) (ha : Filled a) (x pid : Int) (k : Checker) (i : Fin 9) :
    ∃ w', StartThreads { index := x, sudoku_array := a }
        { shared := { isValid := true, parentPID := pid }, out := [] } = some w' ∧
      w'.out = threadJobs.flatMap (fun job => if jobOK a job then [] else [jobLine job]) ∧
      w'.out.count (Line.diag (jobLabel k) (((i : Nat) : Int) + 1)) =
        if (valuesAt a (jobCells k i)).Perm digits then 0 else 1 := by
  refine ⟨_, runJobs_some a x threadJobs _ (inRange_of_mem a ha _ (fun _ h => h)), ?_, ?_⟩
  · simp
  · simp only [List.nil_append]
    have hc := count_lines a threadJobs threadJobs_nodup (k, ((i : Nat) : Int))
    have hl : jobLine (k, ((i : Nat) : Int)) = Line.diag (jobLabel k) (((i : Nat) : Int) + 1) := rfl
    rw [← hl, hc]
    have hmem : (k, ((i : Nat) : Int)) ∈ threadJobs := by
      cases k
      · exact (threadJobs_all i).1
      · exact (threadJobs_all i).2.1
      · exact (threadJobs_all i).2.2
    by_cases hp : (valuesAt a (jobCells k i)).Perm digits
    · have := (jobOK_iff_perm a k i).2 hp
      simp [hp, this]
    · have : jobOK a (k, ((i : Nat) : Int)) = false := by
        cases hb : jobOK a (k, ((i : Nat) : Int)) with
        | false => rfl
        | true => exact absurd ((jobOK_iff_perm a k i).1 hb) hp
      simp [hp, this, hmem]

/-- C6. Diagnostics of the threaded pool are exact: for a grid with all cells
in 1..9 and every index i in 0..8, the output holds the line `Row i+1` once if
row i is not a permutation of 1..9 and not at all if it is, and likewise
`Col i+1` for column i and `Box i+1` for box i (the `Row` lines come from
`CheckCol` and the `Col` lines from `CheckRow`); nothing else is printed. -/
theorem C6_thread_diagnostics (a : Grid) (ha : Filled a) (x pid : Int) :
    ∃ w', StartThreads { index := x, sudoku_array := a }
        { shared := { isValid := true, parentPID := pid }, out := [] } = some w' ∧
      (∀ i : Fin 9,
        (w'.out.count (Line.diag Label.Row (((i : Nat) : Int) + 1)) =
          if (valuesAt a (rowCells i)).Perm digits then 0 else 1) ∧
        (w'.out.count (Line.diag Label.Col (((i : Nat) : Int) + 1)) =
          if (valuesAt a (colCells i)).Perm digits then 0 else 1) ∧
        (w'.out.count (Line.diag Label.Box (((i : Nat) : Int) + 1)) =
          if (valuesAt a (boxCells i)).Perm digits then 0 else 1)) ∧
      (∀ line ∈ w'.out, ∃ (l : Label) (i : Fin 9), line = Line.diag l (((i : Nat) : Int) + 1)) := by
  obtain ⟨w', hw, hout, -⟩ := count_job a ha x pid Checker.Row 0
  refine ⟨w', hw, fun i => ⟨?_, ?_, ?_⟩, ?_⟩
  · obtain ⟨w2, hw2, -, hc⟩ := count_job a ha x pid Checker.Col i
    rw [hw] at hw2
    cases hw2
    exact hc
  · obtain ⟨w2, hw2, -, hc⟩ := count_job a ha x pid Checker.Row i
    rw [hw] at hw2
    cases hw2
    exact hc
  · obtain ⟨w2, hw2, -, hc⟩ := count_job a ha x pid Checker.Box i
    rw [hw] at hw2
    cases hw2
    exact hc
  · intro line hl
    rw [hout, List.mem_flatMap] at hl
    obtain ⟨job, hjob, hline⟩ := hl
    obtain ⟨i, hi⟩ := threadJobs_index job hjob
    by_cases hok : jobOK a job = true
    · simp [hok] at hline
    · simp only [hok, Bool.false_eq_true, ↓reduceIte, List.mem_singleton] at hline
      exact ⟨jobLabel job.1, i, by rw [hline, jobLine, hi]⟩

theorem C6_thread_diagnostics_witness :
    Filled dupGrid ∧
    ∃ w', StartThreads { index := 0, sudoku_array := dupGrid }
        { shared := { isValid := true, parentPID := 7 }, out := [] } = some w' ∧
      w'.out.count (Line.diag Label.Row 1) = 1 ∧
      w'.out.count (Line.diag Label.Row 2) = 0 := by
  obtain ⟨w', hw, hc, -⟩ := C6_thread_diagnostics dupGrid (by decide) 0 7
  refine ⟨by decide, w', hw, ?_, ?_⟩
  · have := (hc 0).1
    rw [if_neg (by decide)] at this
    exact this
  · have := (hc 1).1
    rw [if_pos (by decide)] at this
    exact this

/-! ## Order of the checks -/

theorem forkLoop_stop (forks : Nat → Int) (cF0 : Flags) (k : Checker) (n : Nat) (i : Int)
    (p : Proc) (h : p.exited = true ∨ p.parent = 0 ∨ 9 ≤ i) :
    forkLoop forks cF0 k n i p = some p := by
  cases n with
  | zero => rfl
  | succ n =>
    unfold forkLoop
    rw [if_neg]
    rintro ⟨h1, h2, h3⟩
    rcases h with h | h | h
    · rw [h] at h1
      cases h1
    · exact h3 h
    · omega

theorem forkLoop_pass (forks : Nat → Int) (cF0 : Flags) (k : Checker) (n : Nat) :
    ∀ (i : Int) (p : Proc), p.exited = false → p.parent ≠ 0 → i + n ≤ 9 →
      (∀ m, p.calls ≤ m → m < p.calls + n → forks m ≠ 0) →
      ∃ par, par ≠ 0 ∧
        forkLoop forks cF0 k n i p = some { p with parent := par, calls := p.calls + n } := by
  induction n with
  | zero =>
    intro i p _ hpar _ _
    exact ⟨p.parent, hpar, rfl⟩
  | succ n ih =>
    intro i p hex hpar hi hf
    have hr : forks p.calls ≠ 0 := hf p.calls (Nat.le_refl _) (by omega)
    unfold forkLoop
    rw [if_pos ⟨hex, by omega, hpar⟩]
    simp only [hr, ↓reduceIte]
    obtain ⟨par, hp0, hrec⟩ := ih (i + 1) { p with parent := forks p.calls, calls := p.calls + 1 }
      hex hr (by push_cast at hi ⊢; omega) (fun m h1 h2 => hf m (by simp only at h1; omega)
        (by simp only at h2; omega))
    refine ⟨par, hp0, ?_⟩
    rw [hrec]
    simp only [Option.some.injEq, Proc.mk.injEq, and_true, true_and]
    omega

theorem forkLoop_child (forks : Nat → Int) (cF0 : Flags) (k : Checker) (n : Nat) :
    ∀ (t : Nat) (i : Int) (p : Proc), p.exited = false → p.parent ≠ 0 → i + n ≤ 9 → t < n →
      (∀ m, p.calls ≤ m → m < p.calls + t → forks m ≠ 0) → forks (p.calls + t) = 0 →
      forkLoop forks cF0 k n i p =
        (runFork k { p.temp with index := i + t } cF0 p.world).map
          (childAfter k (i + t) (p.calls + t) p) := by
  induction n with
  | zero =>
    intro t i p _ _ _ ht
    omega
  | succ n ih =>
    intro t i p hex hpar hi ht hf h0
    unfold forkLoop
    rw [if_pos ⟨hex, by omega, hpar⟩]
    cases t with
    | zero =>
      simp only [Nat.add_zero] at h0
      simp only [h0, ↓reduceIte, Nat.cast_zero, add_zero, Nat.add_zero]
      cases hrun : runFork k { p.temp with index := i } cF0 p.world with
      | none => rfl
      | some w =>
        simp only [Option.some_bind, Option.map_some']
        rw [forkLoop_stop _ _ _ _ _ _ (Or.inr (Or.inl rfl))]
        rfl
    | succ t =>
      have hr : forks p.calls ≠ 0 := hf p.calls (Nat.le_refl _) (by omega)
      simp only [hr, ↓reduceIte]
      have := ih t (i + 1) { p with parent := forks p.calls, calls := p.calls + 1 }
        hex hr (by push_cast at hi ⊢; omega) (by omega)
        (fun m h1 h2 => hf m (by simp only at h1; omega) (by simp only at h2; omega))
        (by simp only; rw [← h0]; congr 1; omega)
      rw [this]
      have e1 : i + 1 + (t : Int) = i + ((t + 1 : Nat) : Int) := by push_cast; omega
      have e2 : p.calls + 1 + t = p.calls + (t + 1) := by omega
      simp only [e1, e2]
      rfl

theorem StartProcesses_eq (pid : Int) (forks : Nat → Int) (cF0 : Flags) (info : ThreadInfo)
    (w : World) :
    StartProcesses pid forks cF0 info w =
      (forkLoop forks cF0 Checker.Row 9 0 (procInit pid info w)).bind (fun p =>
      (forkLoop forks cF0 Checker.Col 9 0 p).bind (fun p =>
      forkLoop forks cF0 Checker.Box 9 0 p)) := rfl

theorem StartProcesses_parent (pid : Int) (forks : Nat → Int) (cF0 : Flags)
    (info : ThreadInfo) (w : World) (h : ∀ m, m < 27 → forks m ≠ 0) :
    ∃ par, par ≠ 0 ∧
      StartProcesses pid forks cF0 info w =
        some { procInit pid info w with parent := par, calls := 27 } := by
  rw [StartProcesses_eq]
  obtain ⟨p1, hp1, e1⟩ := forkLoop_pass forks cF0 Checker.Row 9 0 (procInit pid info w) rfl
    (by simp [procInit]) (by norm_num)
    (fun m _ h2 => h m (by simp only [procInit] at h2; omega))
  rw [e1, Option.some_bind]
  obtain ⟨p2, hp2, e2⟩ := forkLoop_pass forks cF0 Checker.Col 9 0
    { procInit pid info w with parent := p1, calls := (procInit pid info w).calls + 9 } rfl
    hp1 (by norm_num) (fun m _ h2 => h m (by simp only [procInit] at h2; omega))
  rw [e2, Option.some_bind]
  obtain ⟨p3, hp3, e3⟩ := forkLoop_pass forks cF0 Checker.Box 9 0
    { procInit pid info w with parent := p2, calls := (procInit pid info w).calls + 9 + 9 } rfl
    hp2 (by norm_num) (fun m _ h2 => h m (by simp only [procInit] at h2; omega))
  exact ⟨p3, hp3, e3⟩

theorem StartProcesses_child (pid : Int) (forks : Nat → Int) (cF0 : Flags)
    (info : ThreadInfo) (w : World) (j : Nat) (hj : j < 27)
    (h : ∀ m, m < j → forks m ≠ 0) (h0 : forks j = 0) :
    StartProcesses pid forks cF0 info w =
      (runFork (slot j).1 { info with index := (slot j).2 } cF0 (procInit pid info w).world).map
        (childAfter (slot j).1 (slot j).2 j (procInit pid info w)) := by
  rw [StartProcesses_eq]
  by_cases hj1 : j < 9
  · have e1 := forkLoop_child forks cF0 Checker.Row 9 j 0 (procInit pid info w) rfl
      (by simp [procInit]) (by norm_num) hj1
      (fun m _ h2 => h m (by simp only [procInit] at h2; omega))
      (by simp only [procInit, Nat.zero_add]; exact h0)
    rw [e1]
    have hs : slot j = (Checker.Row, (j : Int)) := by
      simp only [slot, hj1, ↓reduceIte, Nat.mod_eq_of_lt hj1]
    rw [hs]
    simp only [zero_add, procInit, Nat.zero_add]
    cases runFork Checker.Row { index := (j : Int), sudoku_array := info.sudoku_array } cF0
        { shared := { isValid := w.shared.isValid, parentPID := pid }, out := w.out } with
    | none => rfl
    | some w1 =>
      simp only [Option.map_some', Option.some_bind]
      rw [forkLoop_stop _ _ _ _ _ _ (Or.inr (Or.inl rfl)), Option.some_bind,
        forkLoop_stop _ _ _ _ _ _ (Or.inr (Or.inl rfl))]
  · obtain ⟨p1, hp1, e1⟩ := forkLoop_pass forks cF0 Checker.Row 9 0 (procInit pid info w) rfl
      (by simp [procInit]) (by norm_num)
      (fun m _ h2 => h m (by simp only [procInit] at h2; omega))
    rw [e1, Option.some_bind]
    by_cases hj2 : j < 18
    · have e2 := forkLoop_child forks cF0 Checker.Col 9 (j - 9) 0
        { procInit pid info w with parent := p1, calls := (procInit pid info w).calls + 9 } rfl
        hp1 (by norm_num) (by omega)
        (fun m _ h2 => h m (by simp only [procInit] at h2; omega))
        (by simp only [procInit, Nat.zero_add]; rw [← h0]; congr 1; omega)
      rw [e2]
      have hs : slot j = (Checker.Col, ((j - 9 : Nat) : Int)) := by
        have : j % 9 = j - 9 := by omega
        simp only [slot, hj1, hj2, ↓reduceIte, this]
      have hc : 0 + 9 + (j - 9) = j := by omega
      rw [hs]
      simp only [zero_add, procInit, hc]
      cases runFork Checker.Col { index := ((j - 9 : Nat) : Int), sudoku_array := info.sudoku_array }
          cF0 { shared := { isValid := w.shared.isValid, parentPID := pid }, out := w.out } with
      | none => rfl
      | some w1 =>
        simp only [Option.map_some', Option.some_bind]
        rw [forkLoop_stop _ _ _ _ _ _ (Or.inr (Or.inl rfl))]
        rfl
    · obtain ⟨p2, hp2, e2⟩ := forkLoop_pass forks cF0 Checker.Col 9 0
        { procInit pid info w with parent := p1, calls := (procInit pid info w).calls + 9 } rfl
        hp1 (by norm_num) (fun m _ h2 => h m (by simp only [procInit] at h2; omega))
      rw [e2, Option.some_bind]
      have e3 := forkLoop_child forks cF0 Checker.Box 9 (j - 18) 0
        { procInit pid info w with parent := p2, calls := (procInit pid info w).calls + 9 + 9 }
        rfl hp2 (by norm_num) (by omega)
        (fun m _ h2 => h m (by simp only [procInit] at h2; omega))
        (by simp only [procInit, Nat.zero_add]; rw [← h0]; congr 1; omega)
      rw [e3]
      have hs : slot j = (Checker.Box, ((j - 18 : Nat) : Int)) := by
        have : j % 9 = j - 18 := by omega
        simp only [slot, hj1, hj2, ↓reduceIte, this]
      have hc : 0 + 9 + 9 + (j - 18) = j := by omega
      rw [hs]
      simp only [zero_add, procInit, hc]
      rfl

/-! ## What a worker may change -/

theorem quiet_refl (w : World) : Quiet w w :=
  ⟨fun h => h, rfl, [], by simp, by simp⟩

theorem quiet_trans {w1 w2 w3 : World} (h12 : Quiet w1 w2) (h23 : Quiet w2 w3) : Quiet w1 w3 := by
  obtain ⟨a1, b1, l1, c1, d1⟩ := h12
  obtain ⟨a2, b2, l2, c2, d2⟩ := h23
  refine ⟨fun h => a2 (a1 h), b2.trans b1, l1 ++ l2, ?_, ?_⟩
  · rw [c2, c1, List.append_assoc]
  · intro l hl
    rcases List.mem_append.1 hl with h | h
    · exact d1 l h
    · exact d2 l h

theorem mem_printFirst (cF : Flags) (line : Line) (js : List (Fin 9)) :
    ∀ l ∈ printFirst cF line js, l = line := by
  induction js with
  | nil => simp [printFirst]
  | cons j js ih =>
    intro l hl
    unfold printFirst at hl
    split at hl
    · simpa using hl
    · exact ih l hl

theorem mem_printAll (cF : Flags) (line : Line) (js : List (Fin 9)) :
    ∀ l ∈ printAll cF line js, l = line := by
  induction js with
  | nil => simp [printAll]
  | cons j js ih =>
    intro l hl
    unfold printAll at hl
    rcases List.mem_append.1 hl with h | h
    · split at h
      · simpa using h
      · simp at h
    · exact ih l h

theorem judge_quiet (cF : Flags) (lab : Label) (index : Int) (w : World) :
    Quiet w (judge cF lab index w) := by
  unfold judge
  split
  · exact ⟨fun _ => rfl, rfl, _, rfl,
      fun l hl => ⟨lab, index + 1, mem_printFirst _ _ _ l hl⟩⟩
  · exact quiet_refl w

theorem judgeFork_quiet (cF : Flags) (lab : Label) (index : Int) (w : World) :
    Quiet w (judgeFork cF lab index w) := by
  unfold judgeFork
  split
  · exact ⟨fun _ => rfl, rfl, _, rfl,
      fun l hl => ⟨lab, index + 1, mem_printAll _ _ _ l hl⟩⟩
  · exact quiet_refl w

theorem forkIter_quiet (a : Grid) (lab : Label) (index i : Int) (rc : Int × Int)
    (st st' : Flags × World) (h : forkIter a lab index i rc st = some st') :
    Quiet st.2 st'.2 := by
  unfold forkIter at h
  obtain ⟨cF, -, hcF⟩ := Option.map_eq_some'.1 h
  subst hcF
  split
  · exact ⟨fun _ => rfl, rfl, _, rfl,
      fun l hl => ⟨lab, index + 1, mem_printAll _ _ _ l hl⟩⟩
  · exact quiet_refl _

theorem forkLoopCells_quiet (a : Grid) (lab : Label) (index : Int) (cell : Int → Int × Int)
    (is : List Int) : ∀ (st st' : Flags × World),
      forkLoopCells a lab index cell is st = some st' → Quiet st.2 st'.2 := by
  induction is with
  | nil =>
    intro st st' h
    simp only [forkLoopCells, Option.some.injEq] at h
    subst h
    exact quiet_refl _
  | cons i is ih =>
    intro st st' h
    simp only [forkLoopCells] at h
    obtain ⟨st1, h1, h2⟩ := Option.bind_eq_some.1 h
    exact quiet_trans (forkIter_quiet a lab index i _ st st1 h1) (ih st1 st' h2)

theorem runThread_quiet (k : Checker) (info : ThreadInfo) (w w' : World)
    (h : runThread k info w = some w') : Quiet w w' := by
  rw [runThread_eq] at h
  obtain ⟨cF, -, hcF⟩ := Option.map_eq_some'.1 h
  subst hcF
  exact judge_quiet _ _ _ _

theorem runFork_quiet (k : Checker) (info : ThreadInfo) (cF0 : Flags) (w w' : World)
    (h : runFork k info cF0 w = some w') : Quiet w w' := by
  cases k
  · simp only [runFork, CheckRowFork] at h
    obtain ⟨st, hst, rfl⟩ := Option.map_eq_some'.1 h
    exact forkLoopCells_quiet _ _ _ _ _ (cF0, w) st hst
  · simp only [runFork, CheckColFork] at h
    obtain ⟨st, hst, rfl⟩ := Option.map_eq_some'.1 h
    exact forkLoopCells_quiet _ _ _ _ _ (cF0, w) st hst
  · simp only [runFork, CheckBoxFork] at h
    obtain ⟨cF, -, rfl⟩ := Option.map_eq_some'.1 h
    exact judgeFork_quiet _ _ _ _

theorem runJobs_quiet (info : ThreadInfo) (jobs : List (Checker × Int)) :
    ∀ (w w' : World), runJobs info jobs w = some w' → Quiet w w' := by
  induction jobs with
  | nil =>
    intro w w' h
    simp only [runJobs, Option.some.injEq] at h
    subst h
    exact quiet_refl _
  | cons job rest ih =>
    intro w w' h
    obtain ⟨k, i⟩ := job
    simp only [runJobs] at h
    obtain ⟨w1, h1, h2⟩ := Option.bind_eq_some.1 h
    exact quiet_trans (runThread_quiet k _ w w1 h1) (ih w1 w' h2)

theorem forkLoop_quiet (forks : Nat → Int) (cF0 : Flags) (k : Checker) (n : Nat) :
    ∀ (i : Int) (p p' : Proc), forkLoop forks cF0 k n i p = some p' →
      Quiet p.world p'.world := by
  induction n with
  | zero =>
    intro i p p' h
    simp only [forkLoop, Option.some.injEq] at h
    subst h
    exact quiet_refl _
  | succ n ih =>
    intro i p p' h
    unfold forkLoop at h
    split at h
    · simp only at h
      split at h
      · obtain ⟨w1, h1, h2⟩ := Option.bind_eq_some.1 h
        have hq := ih _ _ _ h2
        exact quiet_trans (runFork_quiet k _ cF0 _ w1 h1) hq
      · have hq := ih _ _ _ h
        exact hq
    · simp only [Option.some.injEq] at h
      subst h
      exact quiet_refl _

theorem StartProcesses_quiet (pid : Int) (forks : Nat → Int) (cF0 : Flags)
    (info : ThreadInfo) (w : World) (p : Proc)
    (h : StartProcesses pid forks cF0 info w = some p) :
    Quiet (procInit pid info w).world p.world := by
  rw [StartProcesses_eq] at h
  obtain ⟨p1, h1, h⟩ := Option.bind_eq_some.1 h
  obtain ⟨p2, h2, h3⟩ := Option.bind_eq_some.1 h
  exact quiet_trans (forkLoop_quiet _ _ _ _ _ _ _ h1)
    (quiet_trans (forkLoop_quiet _ _ _ _ _ _ _ h2) (forkLoop_quiet _ _ _ _ _ _ _ h3))

theorem foldlM_false (pid : Int) (forks : Nat → Nat → Int) (junk : Nat → Flags)
    (info : ThreadInfo) (js : List Nat) : ∀ (w w' : World),
      js.foldlM (fun w j => (StartProcesses pid (forks j) (junk j) info w).map Proc.world) w
        = some w' →
      w.shared.isValid = false → w'.shared.isValid = false := by
  induction js with
  | nil =>
    intro w w' h hf
    simp only [List.foldlM_nil, Option.pure_def, Option.some.injEq] at h
    subst h
    exact hf
  | cons j js ih =>
    intro w w' h hf
    simp only [List.foldlM_cons, Option.bind_eq_bind] at h
    obtain ⟨w1, h1, h2⟩ := Option.bind_eq_some.1 h
    obtain ⟨p, hp, rfl⟩ := Option.map_eq_some'.1 h1
    exact ih _ _ h2 ((StartProcesses_quiet _ _ _ _ _ _ hp).1 hf)

theorem processPool_false (pid : Int) (pids : Nat → Int) (junk : Nat → Flags)
    (info : ThreadInfo) (w w' : World) (h : processPool pid pids junk info w = some w')
    (hf : w.shared.isValid = false) : w'.shared.isValid = false := by
  unfold processPool at h
  obtain ⟨p, hp, h2⟩ := Option.bind_eq_some.1 h
  exact foldlM_false pid (childForks pids) junk info _ _ _ h2
    ((StartProcesses_quiet _ _ _ _ _ _ hp).1 hf)

/-- C7. A false verdict stays false: if `isValid` is false before any of the six
checkers (on any grid, index and initial flag content), or before either pool,
then it is false in every world they return; no write of `true` exists. -/
theorem C7_verdict_monotone (info : ThreadInfo) (cF0 : Flags) (w w' : World)
    (hf : w.shared.isValid = false) :
    (CheckRow info w = some w' → w'.shared.isValid = false) ∧
    (CheckCol info w = some w' → w'.shared.isValid = false) ∧
    (CheckBox info w = some w' → w'.shared.isValid = false) ∧
    (CheckRowFork info cF0 w = some w' → w'.shared.isValid = false) ∧
    (CheckColFork info cF0 w = some w' → w'.shared.isValid = false) ∧
    (CheckBoxFork info cF0 w = some w' → w'.shared.isValid = false) ∧
    (StartThreads info w = some w' → w'.shared.isValid = false) ∧
    (∀ (pid : Int) (pids : Nat → Int) (junk : Nat → Flags),
      processPool pid pids junk info w = some w' → w'.shared.isValid = false) :=
  ⟨fun h => (runThread_quiet Checker.Row info w w' h).1 hf,
   fun h => (runThread_quiet Checker.Col info w w' h).1 hf,
   fun h => (runThread_quiet Checker.Box info w w' h).1 hf,
   fun h => (runFork_quiet Checker.Row info cF0 w w' h).1 hf,
   fun h => (runFork_quiet Checker.Col info cF0 w w' h).1 hf,
   fun h => (runFork_quiet Checker.Box info cF0 w w' h).1 hf,
   fun h => (runJobs_quiet info threadJobs w w' h).1 hf,
   fun pid pids junk h => processPool_false pid pids junk info w w' h hf⟩

theorem C7_verdict_monotone_witness :
    ∃ w', CheckRow { index := 0, sudoku_array := solved }
        { shared := { isValid := false, parentPID := 7 }, out := [] } = some w' ∧
      w'.shared.isValid = false :=
  ⟨{ shared := { isValid := false, parentPID := 7 }, out := [] }, by decide,
    (C7_verdict_monotone { index := 0, sudoku_array := solved } noFlags
      { shared := { isValid := false, parentPID := 7 }, out := [] }
      { shared := { isValid := false, parentPID := 7 }, out := [] } rfl).1 (by decide)⟩

/-! ## Fork checkers -/

theorem markCells_append (a : Grid) (l1 l2 : List (Int × Int)) (cF : Flags) :
    markCells a (l1 ++ l2) cF = (markCells a l1 cF).bind (markCells a l2) := by
  induction l1 generalizing cF with
  | nil => rfl
  | cons rc rest ih =>
    simp only [List.cons_append, markCells]
    cases markCell a cF rc with
    | none => rfl
    | some cF1 => exact ih cF1

theorem forkLoopCells_append (a : Grid) (lab : Label) (index : Int) (cell : Int → Int × Int)
    (l1 l2 : List Int) (st : Flags × World) :
    forkLoopCells a lab index cell (l1 ++ l2) st =
      (forkLoopCells a lab index cell l1 st).bind (forkLoopCells a lab index cell l2) := by
  induction l1 generalizing st with
  | nil => rfl
  | cons i rest ih =>
    simp only [List.cons_append, forkLoopCells]
    cases forkIter a lab index i (cell i) st with
    | none => rfl
    | some st1 => exact ih st1

theorem forkLoopCells_early (a : Grid) (lab : Label) (index : Int) (cell : Int → Int × Int)
    (is : List Int) (h8 : (8 : Int) ∉ is) (st : Flags × World) :
    forkLoopCells a lab index cell is st =
      (markCells a (is.map cell) st.1).map (fun cF => (cF, st.2)) := by
  induction is generalizing st with
  | nil => rfl
  | cons i rest ih =>
    have hi : (i == 8) = false := by
      simp only [beq_eq_false_iff_ne, ne_eq]
      intro h
      exact h8 (by simp [h])
    have hrest : (8 : Int) ∉ rest := fun h => h8 (List.mem_cons_of_mem _ h)
    simp only [forkLoopCells, forkIter, hi, Bool.false_and, Bool.false_eq_true, ↓reduceIte,
      List.map_cons, markCells]
    cases markCell a st.1 (cell i) with
    | none => rfl
    | some cF1 => simp only [Option.map_some', Option.some_bind, ih hrest]

theorem forkLoopCells_last (a : Grid) (lab : Label) (index : Int) (cell : Int → Int × Int)
    (st : Flags × World) :
    (forkLoopCells a lab index cell [8] st).map Prod.snd =
      (markCells a [cell 8] st.1).map (fun cF => judgeFork cF lab index st.2) := by
  simp only [forkLoopCells, forkIter, markCells, beq_self_eq_true, Bool.true_and]
  cases markCell a st.1 (cell 8) with
  | none => rfl
  | some cF1 =>
    simp only [Option.map_some', Option.some_bind, judgeFork]
    split <;> rfl

theorem forkLoopCells_eq (a : Grid) (lab : Label) (index : Int) (cell : Int → Int × Int)
    (cF0 : Flags) (w : World) :
    (forkLoopCells a lab index cell (upto 0 8) (cF0, w)).map Prod.snd =
      (markCells a ((upto 0 8).map cell) cF0).map (fun cF => judgeFork cF lab index w) := by
  have hsplit : upto 0 8 = [0, 1, 2, 3, 4, 5, 6, 7] ++ [8] := by decide
  rw [hsplit, forkLoopCells_append, List.map_append, markCells_append,
    forkLoopCells_early a lab index cell _ (by decide)]
  cases markCells a (List.map cell [0, 1, 2, 3, 4, 5, 6, 7]) cF0 with
  | none => rfl
  | some cF1 =>
    simp only [Option.map_some', Option.some_bind]
    exact forkLoopCells_last a lab index cell (cF1, w)

theorem runFork_eq (k : Checker) (info : ThreadInfo) (cF0 : Flags) (w : World) :
    runFork k info cF0 w =
      (markCells info.sudoku_array (forkReads k info.index) cF0).map
        (fun cF => judgeFork cF (forkLabel k) info.index w) := by
  cases k
  · exact forkLoopCells_eq _ _ _ _ _ _
  · exact forkLoopCells_eq _ _ _ _ _ _
  · rfl

theorem inRange_fork (a : Grid) (ha : Filled a) (k : Checker) (i : Fin 9) :
    InRange a (forkReads k ((i : Nat) : Int)) := by
  cases k
  · exact inRange_job a ha Checker.Col i
  · exact inRange_job a ha Checker.Row i
  · exact inRange_job a ha Checker.Box i

theorem runFork_some (a : Grid) (k : Checker) (i : Int) (cF0 : Flags) (w : World)
    (h : InRange a (forkReads k i)) :
    runFork k { index := i, sudoku_array := a } cF0 w =
      some (judgeFork (marked cF0 (vals a (forkReads k i))) (forkLabel k) i w) := by
  rw [runFork_eq]
  simp only [markCells_some a _ cF0 h, Option.map_some']

/-! ## Dispatch -/

theorem slot_get : ∀ j : Fin 27, threadJobs[j.val]? = some (slot j.val) := by decide

theorem slot_fin (j : Nat) : ∃ i : Fin 9, (slot j).2 = ((i : Nat) : Int) :=
  ⟨⟨j % 9, Nat.mod_lt _ (by decide)⟩, rfl⟩

theorem childForks_before (pids : Nat → Int) (j m : Nat) (hm : m < j) :
    childForks pids j m = pids m := by
  simp [childForks, hm]

theorem childForks_self (pids : Nat → Int) (j : Nat) : childForks pids j j = 0 := by
  simp [childForks]

/-- C9. Each pool dispatches exactly the 27 checks (kind, index), kind in
{Row, Col, Box} and index in 0..8, each once: `StartThreads` runs the 27-entry
list `threadJobs`, whose inspected groups are the 27 groups (row, column, box
times 0..8) under the thread checkers and under the fork checkers alike; in
process mode, when every `fork` succeeds in the parent, the parent calls
`fork` 27 times and runs no checker itself, and the child born at call j runs
exactly the j-th entry of the same list. -/
theorem C9_dispatch :
    (∀ info w, StartThreads info w = runJobs info threadJobs w) ∧
    threadJobs.length = 27 ∧ threadJobs.Nodup ∧
    (∀ (k : Checker) (i : Int), (k, i) ∈ threadJobs ↔ 0 ≤ i ∧ i ≤ 8) ∧
    (threadJobs.map (fun job => (jobLabel job.1, job.2))).Perm allGroups ∧
    (threadJobs.map (fun job => (forkLabel job.1, job.2))).Perm allGroups ∧
    (∀ (pid x : Int) (pids : Nat → Int) (cF0 : Flags) (a : Grid) (w : World),
      (∀ n, 0 < pids n) → Filled a →
      (∃ p, StartProcesses pid pids cF0 { index := x, sudoku_array := a } w = some p ∧
        p.calls = 27 ∧ p.ran = [] ∧ p.exited = false) ∧
      (∀ j, j < 27 →
        ∃ p job, StartProcesses pid (childForks pids j) cF0
            { index := x, sudoku_array := a } w = some p ∧
          threadJobs[j]? = some job ∧ p.ran = [job])) := by
  refine ⟨fun _ _ => rfl, by decide, threadJobs_nodup, ?_, by decide, by decide, ?_⟩
  · intro k i
    constructor
    · intro h
      obtain ⟨n, hn⟩ := threadJobs_index _ h
      have := n.isLt
      simp only at hn
      omega
    · rintro ⟨h0, h8⟩
      have hi : i = (((⟨i.toNat, by omega⟩ : Fin 9) : Nat) : Int) := by
        simp only
        omega
      rw [hi]
      cases k
      · exact (threadJobs_all _).1
      · exact (threadJobs_all _).2.1
      · exact (threadJobs_all _).2.2
  · intro pid x pids cF0 a w hpos ha
    constructor
    · obtain ⟨par, -, hp⟩ := StartProcesses_parent pid pids cF0 { index := x, sudoku_array := a } w
        (fun m _ => by have := hpos m; omega)
      exact ⟨_, hp, rfl, rfl, rfl⟩
    · intro j hj
      have hc := StartProcesses_child pid (childForks pids j) cF0
        { index := x, sudoku_array := a } w j hj
        (fun m hm => by rw [childForks_before pids j m hm]; have := hpos m; omega)
        (childForks_self pids j)
      obtain ⟨i, hi⟩ := slot_fin j
      have hrun := runFork_some a (slot j).1 (slot j).2 cF0
        (procInit pid { index := x, sudoku_array := a } w).world
        (by rw [hi]; exact inRange_fork a ha _ i)
      rw [hrun, Option.map_some'] at hc
      exact ⟨_, slot j, hc, slot_get ⟨j, hj⟩, rfl⟩

theorem C9_dispatch_witness :
    (∀ n, 0 < goodPids n) ∧ Filled solved ∧
    (∃ p, StartProcesses 7 goodPids noFlags { index := 0, sudoku_array := solved }
        { shared := { isValid := true, parentPID := 7 }, out := [] } = some p ∧
      p.calls = 27 ∧ p.ran = [] ∧ p.exited = false) ∧
    (∃ p job, StartProcesses 7 (childForks goodPids 13) noFlags
        { index := 0, sudoku_array := solved }
        { shared := { isValid := true, parentPID := 7 }, out := [] } = some p ∧
      threadJobs[13]? = some job ∧ p.ran = [job]) := by
  have hpos : ∀ n, 0 < goodPids n := fun n => by
    simp only [goodPids]
    omega
  have h := C9_dispatch.2.2.2.2.2.2 7 0 goodPids noFlags solved
    { shared := { isValid := true, parentPID := 7 }, out := [] } hpos (by decide)
  exact ⟨hpos, by decide, h.1, h.2 13 (by decide)⟩

/-! ## The report at the end of `main` -/

theorem slot_not_box (j : Nat) (hj : j < 18) : decide ((slot j).1 = Checker.Box) = false := by
  by_cases h9 : j < 9
  · simp [slot, h9]
  · simp [slot, h9, hj]

theorem mainFork_child (pid self : Int) (pids : Nat → Int) (cF0 : Flags) (a : Grid)
    (j : Nat) (w' : World) (hj : j < 18) (hself : self ≠ pid)
    (hpids : ∀ m, m < j → pids m ≠ 0)
    (h : mainFork pid self (childForks pids j) cF0 a = some w') :
    ∃ lines, w'.out = [Line.forking] ++ lines ∧ ∀ l ∈ lines, ∃ lab n, l = Line.diag lab n := by
  unfold mainFork at h
  rw [StartProcesses_child pid (childForks pids j) cF0 _ _ j (by omega)
    (fun m hm => by rw [childForks_before pids j m hm]; exact hpids m hm)
    (childForks_self pids j)] at h
  obtain ⟨p, hp, rfl⟩ := Option.map_eq_some'.1 h
  obtain ⟨w1, hw1, rfl⟩ := Option.map_eq_some'.1 hp
  obtain ⟨-, hpid, lines, hout, hlines⟩ := runFork_quiet _ _ _ _ _ hw1
  refine ⟨lines, ?_, hlines⟩
  have hne : ¬ self = w1.shared.parentPID := by
    rw [hpid]
    exact hself
  simp only [endOfMain, childAfter, slot_not_box j hj, Bool.false_eq_true, ↓reduceIte, report,
    hne, List.append_nil]
  rw [hout]
  rfl

/-! ## The two pools compared -/

/-- C4 (failing input). On the grid whose first row starts 2 2 3 ..., with the
uninitialised `cF` of every child holding non-zero bytes, the process pool ends
with `isValid` true although the threaded pool ends with `isValid` false; with
zeroed flags the same pool ends with `isValid` false.  The parent itself
leaves `StartProcesses` without waiting: when it reaches the report before any
child has written, it prints `valid`. -/
theorem C4_pools_diverge :
    Filled dupGrid ∧
    (StartThreads { index := 0, sudoku_array := dupGrid }
      { shared := { isValid := true, parentPID := 7 }, out := [] }).map
      (fun w => w.shared.isValid) = some false ∧
    (processPool 7 goodPids (fun _ _ => true) { index := 0, sudoku_array := dupGrid }
      { shared := { isValid := true, parentPID := 7 }, out := [] }).map
      (fun w => w.shared.isValid) = some true ∧
    (processPool 7 goodPids (fun _ => noFlags) { index := 0, sudoku_array := dupGrid }
      { shared := { isValid := true, parentPID := 7 }, out := [] }).map
      (fun w => w.shared.isValid) = some false ∧
    mainFork 7 7 goodPids noFlags dupGrid =
      some { shared := { isValid := true, parentPID := 7 },
             out := [Line.forking, Line.valid] } := by
  decide

/-! ## Index safety -/

theorem readCell_bounds (a : Grid) (r c v : Int) (h : readCell a r c = some v) :
    0 ≤ r ∧ r ≤ 8 ∧ 0 ≤ c ∧ c ≤ 8 := by
  unfold readCell at h
  split at h
  · omega
  · cases h

theorem safeReads_of_inRange (a : Grid) (reads : List (Int × Int)) (h : InRange a reads) :
    SafeReads a reads := by
  intro rc hrc
  obtain ⟨v, hv, h1, h9⟩ := h rc hrc
  refine ⟨readCell_bounds a _ _ v hv, v, hv, by omega, by omega, fun cF => ?_⟩
  refine ⟨marked cF [v], ?_⟩
  simp only [markCell, hv, Option.some_bind, setFlag_eq cF v h1 h9]

/-- C15. For a grid with all cells in 1..9 and an index in 0..8, every grid
access of `CheckRow`, `CheckCol` and `CheckBox` is inside the 9x9 grid and
every flag access `cF[value-1]` has its index in 0..8; the checkers therefore
return a world (the out-of-bounds branch `none` is not taken). -/
theorem C15_index_safety (a : Grid) (ha : Filled a) (i : Fin 9) (w : World) :
    SafeReads a (readsOfCheckRow ((i : Nat) : Int)) ∧
    SafeReads a (readsOfCheckCol ((i : Nat) : Int)) ∧
    SafeReads a (boxReads ((i : Nat) : Int)) ∧
    (∃ w', CheckRow { index := ((i : Nat) : Int), sudoku_array := a } w = some w') ∧
    (∃ w', CheckCol { index := ((i : Nat) : Int), sudoku_array := a } w = some w') ∧
    (∃ w', CheckBox { index := ((i : Nat) : Int), sudoku_array := a } w = some w') :=
  ⟨safeReads_of_inRange a _ (inRange_job a ha Checker.Row i),
   safeReads_of_inRange a _ (inRange_job a ha Checker.Col i),
   safeReads_of_inRange a _ (inRange_job a ha Checker.Box i),
   ⟨_, runThread_some a Checker.Row _ w (inRange_job a ha Checker.Row i)⟩,
   ⟨_, runThread_some a Checker.Col _ w (inRange_job a ha Checker.Col i)⟩,
   ⟨_, runThread_some a Checker.Box _ w (inRange_job a ha Checker.Box i)⟩⟩

theorem C15_index_safety_witness :
    Filled solved ∧ SafeReads solved (boxReads 1) ∧
    (∃ w', CheckBox { index := 1, sudoku_array := solved }
      { shared := { isValid := true, parentPID := 7 }, out := [] } = some w') :=
  ⟨by decide,
    (C15_index_safety solved (by decide) 1
      { shared := { isValid := true, parentPID := 7 }, out := [] }).2.2.1,
    (C15_index_safety solved (by decide) 1
      { shared := { isValid := true, parentPID := 7 }, out := [] }).2.2.2.2.2⟩

/-! ## The boxes partition the grid -/

/-- C16. The nine box selections of `CheckBox` partition the grid: for box
indices 0..8 the selected cell sets are pairwise disjoint, each has exactly 9
cells, and their union is the set of all 81 cells; every cell is read by
exactly one box check, one `CheckRow` call (its column) and one `CheckCol`
call (its row). -/
theorem C16_boxes_partition :
    (∀ b1 b2 : Fin 9, b1 ≠ b2 →
      ∀ rc ∈ boxReads ((b1 : Nat) : Int), rc ∉ boxReads ((b2 : Nat) : Int)) ∧
    (∀ b : Fin 9, (boxReads ((b : Nat) : Int)).dedup.length = 9) ∧
    ((List.finRange 9).flatMap (fun b => (boxReads ((b : Nat) : Int)).dedup)).Perm
      (allCells.map toInts) ∧
    (∀ r c : Fin 9, ∃ b : Fin 9, toInts (r, c) ∈ boxReads ((b : Nat) : Int) ∧
      ∀ j : Fin 9, toInts (r, c) ∈ boxReads ((j : Nat) : Int) → j = b) ∧
    (∀ r c : Fin 9, ∃ i : Fin 9, toInts (r, c) ∈ readsOfCheckRow ((i : Nat) : Int) ∧
      ∀ j : Fin 9, toInts (r, c) ∈ readsOfCheckRow ((j : Nat) : Int) → j = i) ∧
    (∀ r c : Fin 9, ∃ i : Fin 9, toInts (r, c) ∈ readsOfCheckCol ((i : Nat) : Int) ∧
      ∀ j : Fin 9, toInts (r, c) ∈ readsOfCheckCol ((j : Nat) : Int) → j = i) := by
  refine ⟨by decide, by decide, by decide, by decide, by decide, by decide⟩

theorem C16_boxes_partition_witness :
    (0 : Fin 9) ≠ 1 ∧ ∀ rc ∈ boxReads 0, rc ∉ boxReads 1 :=
  ⟨by decide, C16_boxes_partition.1 0 1 (by decide)⟩

/-! ## Fork checkers against thread checkers -/

theorem forkIter_early (a : Grid) (lab : Label) (index i : Int) (rc : Int × Int)
    (st st' : Flags × World) (hi : i ≠ 8) (h : forkIter a lab index i rc st = some st') :
    st'.2 = st.2 := by
  unfold forkIter at h
  obtain ⟨cF, -, hcF⟩ := Option.map_eq_some'.1 h
  have h8 : (i == 8) = false := by simpa using hi
  simp only [h8, Bool.false_and, Bool.false_eq_true, ↓reduceIte] at hcF
  rw [← hcF]

theorem judgeFork_shared (cF : Flags) (l l' : Label) (index : Int) (w : World) :
    (judgeFork cF l index w).shared = (judge cF l' index w).shared := by
  unfold judgeFork judge
  split <;> rfl

theorem fork_thread_shared (k k' : Checker) (hreads : ∀ i, forkReads k i = jobReads k' i)
    (info : ThreadInfo) (w : World) :
    (runFork k info noFlags w).map World.shared = (runThread k' info w).map World.shared := by
  rw [runFork_eq, runThread_eq, hreads]
  cases markCells info.sudoku_array (jobReads k' info.index) noFlags with
  | none => rfl
  | some cF =>
    simp only [Option.map_some']
    rw [judgeFork_shared cF (forkLabel k) (jobLabel k')]

/-- C17. In `CheckRowFork` / `CheckColFork` the guard is
`(i == 8) && (some flag unset)`: an iteration with `i != 8` leaves the world
as it was.  Hence, for a grid with all cells in 1..9, an index in 0..8 and
flags that start all false, each fork checker returns and updates the shared
result exactly as the thread checker of the same group does: `CheckRowFork`
as `CheckCol`, `CheckColFork` as `CheckRow`, `CheckBoxFork` as `CheckBox`. -/
theorem C17_fork_matches_thread (a : Grid) (ha : Filled a) (i : Fin 9) (w : World) :
    (∀ (lab : Label) (index it : Int) (rc : Int × Int) (st st' : Flags × World),
      it ≠ 8 → forkIter a lab index it rc st = some st' → st'.2 = st.2) ∧
    (∃ wf wt, CheckRowFork { index := ((i : Nat) : Int), sudoku_array := a } noFlags w = some wf ∧
      CheckCol { index := ((i : Nat) : Int), sudoku_array := a } w = some wt ∧
      wf.shared = wt.shared) ∧
    (∃ wf wt, CheckColFork { index := ((i : Nat) : Int), sudoku_array := a } noFlags w = some wf ∧
      CheckRow { index := ((i : Nat) : Int), sudoku_array := a } w = some wt ∧
      wf.shared = wt.shared) ∧
    (∃ wf wt, CheckBoxFork { index := ((i : Nat) : Int), sudoku_array := a } noFlags w = some wf ∧
      CheckBox { index := ((i : Nat) : Int), sudoku_array := a } w = some wt ∧
      wf.shared = wt.shared) := by
  have key : ∀ (k k' : Checker), (∀ n, forkReads k n = jobReads k' n) →
      ∃ wf wt, runFork k { index := ((i : Nat) : Int), sudoku_array := a } noFlags w = some wf ∧
        runThread k' { index := ((i : Nat) : Int), sudoku_array := a } w = some wt ∧
        wf.shared = wt.shared := by
    intro k k' hreads
    have hin : InRange a (jobReads k' ((i : Nat) : Int)) := inRange_job a ha k' i
    have hf := runFork_some a k ((i : Nat) : Int) noFlags w (by rw [hreads]; exact hin)
    have ht := runThread_some a k' ((i : Nat) : Int) w hin
    have hs := fork_thread_shared k k' hreads { index := ((i : Nat) : Int), sudoku_array := a } w
    rw [hf, ht] at hs
    exact ⟨_, _, hf, ht, Option.some.inj hs⟩
  exact ⟨fun lab index it rc st st' hit h => forkIter_early a lab index it rc st st' hit h,
    key Checker.Row Checker.Col (fun _ => rfl),
    key Checker.Col Checker.Row (fun _ => rfl),
    key Checker.Box Checker.Box (fun _ => rfl)⟩

theorem C17_fork_matches_thread_witness :
    Filled dupGrid ∧
    ∃ wf wt, CheckRowFork { index := 0, sudoku_array := dupGrid } noFlags
        { shared := { isValid := true, parentPID := 7 }, out := [] } = some wf ∧
      CheckCol { index := 0, sudoku_array := dupGrid }
        { shared := { isValid := true, parentPID := 7 }, out := [] } = some wt ∧
      wf.shared = wt.shared :=
  ⟨by decide,
    (C17_fork_matches_thread dupGrid (by decide) 0
      { shared := { isValid := true, parentPID := 7 }, out := [] }).2.1⟩

/-! ## Children never spawn -/

/-- C18. Children never spawn.  Whatever `fork` returns: a process whose first
`fork` result 0 comes at call j (j < 27) runs exactly one checker, the one of
the loop of that call with `index` equal to the loop counter `j % 9`, and
makes no `fork` call after call j; a process whose 27 calls all return
non-zero makes exactly 27 calls and runs no checker. -/
theorem C18_children_never_spawn (pid : Int) (forks : Nat → Int) (cF0 : Flags)
    (info : ThreadInfo) (w : World) :
    (∀ (j : Nat) (p : Proc), j < 27 → (∀ m, m < j → forks m ≠ 0) → forks j = 0 →
      StartProcesses pid forks cF0 info w = some p →
      p.ran = [slot j] ∧ (slot j).2 = ((j % 9 : Nat) : Int) ∧ p.temp.index = (slot j).2 ∧
      p.calls = j + 1 ∧ p.parent = 0) ∧
    (∀ (j : Nat), j < 27 → (∀ m, m < j → forks m ≠ 0) → forks j = 0 →
      Filled info.sudoku_array → ∃ p, StartProcesses pid forks cF0 info w = some p) ∧
    ((∀ m, m < 27 → forks m ≠ 0) →
      ∃ p, StartProcesses pid forks cF0 info w = some p ∧ p.calls = 27 ∧ p.ran = [] ∧
        p.exited = false) := by
  refine ⟨?_, ?_, ?_⟩
  · intro j p hj hbefore h0 hp
    rw [StartProcesses_child pid forks cF0 info w j hj hbefore h0] at hp
    obtain ⟨w1, -, rfl⟩ := Option.map_eq_some'.1 hp
    exact ⟨rfl, rfl, rfl, rfl, rfl⟩
  · intro j hj hbefore h0 ha
    rw [StartProcesses_child pid forks cF0 info w j hj hbefore h0]
    obtain ⟨i, hi⟩ := slot_fin j
    have hrun := runFork_some info.sudoku_array (slot j).1 (slot j).2 cF0
      (procInit pid info w).world (by rw [hi]; exact inRange_fork _ ha _ i)
    rw [hrun]
    exact ⟨_, rfl⟩
  · intro hall
    obtain ⟨par, -, hp⟩ := StartProcesses_parent pid forks cF0 info w hall
    exact ⟨_, hp, rfl, rfl, rfl⟩

theorem C18_children_never_spawn_witness :
    (∃ p, StartProcesses 7 (childForks goodPids 13) noFlags
        { index := 0, sudoku_array := solved }
        { shared := { isValid := true, parentPID := 7 }, out := [] } = some p ∧
      p.ran = [(Checker.Col, 4)] ∧ p.calls = 14) ∧
    (∃ p, StartProcesses 7 goodPids noFlags { index := 0, sudoku_array := solved }
        { shared := { isValid := true, parentPID := 7 }, out := [] } = some p ∧
      p.calls = 27 ∧ p.ran = [] ∧ p.exited = false) := by
  have h := C18_children_never_spawn 7 (childForks goodPids 13) noFlags
    { index := 0, sudoku_array := solved }
    { shared := { isValid := true, parentPID := 7 }, out := [] }
  have hbefore : ∀ m, m < 13 → childForks goodPids 13 m ≠ 0 := by
    intro m hm
    rw [childForks_before goodPids 13 m hm]
    simp only [goodPids]
    omega
  obtain ⟨p, hp⟩ := h.2.1 13 (by decide) hbefore (childForks_self goodPids 13) (by decide)
  have hq := h.1 13 p (by decide) hbefore (childForks_self goodPids 13) hp
  have hg := (C18_children_never_spawn 7 goodPids noFlags
    { index := 0, sudoku_array := solved }
    { shared := { isValid := true, parentPID := 7 }, out := [] }).2.2
    (fun m _ => by simp only [goodPids]; omega)
  exact ⟨⟨p, hp, hq.1, hq.2.2.2.1⟩, hg⟩

/-! ## Diagnostics of the fork checkers -/

theorem printAll_eq (cF : Flags) (line : Line) (js : List (Fin 9)) :
    printAll cF line js =
      List.replicate (js.filter (fun j => decide (cF j = false))).length line := by
  induction js with
  | nil => rfl
  | cons j js ih =>
    unfold printAll
    rw [ih, List.filter_cons]
    by_cases hj : cF j = false
    · simp [hj, List.replicate_succ]
    · simp [hj]

theorem digits_eq_map : digits = flagIdx.map (fun (j : Fin 9) => ((j : Nat) : Int) + 1) := by decide

theorem unset_count (vs : List Int) :
    (flagIdx.filter (fun j => decide (marked noFlags vs j = false))).length =
      (missing vs).length := by
  unfold missing
  rw [digits_eq_map, List.filter_map, List.length_map]
  exact congrArg List.length (List.filter_congr (fun j _ => by simp [marked, noFlags]))

theorem judgeFork_out (vs : List Int) (l : Label) (index : Int) (w : World) :
    (judgeFork (marked noFlags vs) l index w).out =
      w.out ++ List.replicate (missing vs).length (Line.diag l (index + 1)) := by
  unfold judgeFork
  split
  · simp only [printAll_eq, unset_count]
  · rename_i hu
    have hall := (anyUnset_eq_false _).1 (by simpa using hu)
    have h0 : (missing vs).length = 0 := by
      rw [← unset_count]
      simp [hall]
    simp [h0]

theorem missing_of_perm (vs : List Int) (h : vs.Perm digits) : (missing vs).length = 0 := by
  unfold missing
  rw [List.length_eq_zero, List.filter_eq_nil_iff]
  intro d hd
  simpa using h.symm.subset hd

theorem missing_pos (vs : List Int) (hl : vs.length = 9) (h : ¬ vs.Perm digits) :
    1 ≤ (missing vs).length := by
  by_contra hlt
  have h0 : (missing vs).length = 0 := by omega
  apply h
  apply (covers_iff_perm vs hl).1
  intro d hd
  unfold missing at h0
  rw [List.length_eq_zero, List.filter_eq_nil_iff] at h0
  simpa using h0 d hd

theorem missing_le (vs : List Int) (v : Int) (hv : v ∈ vs) (h1 : 1 ≤ v) (h9 : v ≤ 9) :
    (missing vs).length ≤ 8 := by
  have hvd : v ∈ digits := by
    simp only [digits, List.mem_cons, List.mem_singleton, List.not_mem_nil, or_false]
    omega
  have hlt : (missing vs).length < digits.length := by
    unfold missing
    apply List.length_filter_lt_length_iff_exists.2
    exact ⟨v, hvd, by simpa using hv⟩
  have : digits.length = 9 := rfl
  omega

theorem mem_vals_job (a : Grid) (k : Checker) (i : Fin 9) (d : Int) :
    d ∈ vals a (jobReads k ((i : Nat) : Int)) ↔ d ∈ valuesAt a (jobCells k i) := by
  rcases jobReads_eq k i with h | h
  · rw [h, vals_toInts]
  · rw [h]
    have hv : vals a ((jobCells k i).map toInts ++ (jobCells k i).map toInts) =
        vals a ((jobCells k i).map toInts) ++ vals a ((jobCells k i).map toInts) :=
      List.filterMap_append _ _ _
    rw [hv, vals_toInts, List.mem_append, or_self]

theorem missing_job (a : Grid) (k : Checker) (i : Fin 9) :
    missing (vals a (jobReads k ((i : Nat) : Int))) = missing (valuesAt a (jobCells k i)) := by
  unfold missing
  apply List.filter_congr
  intro d _
  simp only [mem_vals_job]

theorem fork_lines (a : Grid) (ha : Filled a) (k k' : Checker)
    (hreads : ∀ n, forkReads k n = jobReads k' n) (hcells : ∀ n, forkCells k n = jobCells k' n)
    (i : Fin 9) (w : World) :
    ∃ w', runFork k { index := ((i : Nat) : Int), sudoku_array := a } noFlags w = some w' ∧
      w'.out = w.out ++ List.replicate (missing (valuesAt a (forkCells k i))).length
        (Line.diag (forkLabel k) (((i : Nat) : Int) + 1)) := by
  have hin : InRange a (forkReads k ((i : Nat) : Int)) := inRange_fork a ha k i
  refine ⟨_, runFork_some a k _ noFlags w hin, ?_⟩
  rw [judgeFork_out, hreads, missing_job, hcells]

theorem missing_bounds (a : Grid) (ha : Filled a) (k : Checker) (i : Fin 9) :
    ((valuesAt a (jobCells k i)).Perm digits →
      (missing (valuesAt a (jobCells k i))).length = 0) ∧
    (¬ (valuesAt a (jobCells k i)).Perm digits →
      1 ≤ (missing (valuesAt a (jobCells k i))).length ∧
      (missing (valuesAt a (jobCells k i))).length ≤ 8) := by
  refine ⟨missing_of_perm _, fun h => ⟨missing_pos _ (length_valuesAt a k i) h, ?_⟩⟩
  have hlen := length_valuesAt a k i
  cases hv : valuesAt a (jobCells k i) with
  | nil => simp [hv] at hlen
  | cons v rest =>
    have hmem : v ∈ valuesAt a (jobCells k i) := by simp [hv]
    obtain ⟨rc, -, hrc⟩ := List.mem_map.1 hmem
    have := ha rc.1 rc.2
    rw [hrc] at this
    rw [← hv]
    exact missing_le _ v hmem this.1 this.2

/-- C19. Process-mode diagnostics.  For a grid with all cells in 1..9, an index
in 0..8 and flags that start all false, each fork checker returns and appends
to stdout one line per digit of 1..9 missing from its group, all of them the
same line naming the group kind and the 1-based index; the number of lines is
0 when the group is a permutation of 1..9 and between 1 and 8 otherwise. -/
theorem C19_fork_diagnostics (a : Grid) (ha : Filled a) (i : Fin 9) (w : World) :
    (∃ w', CheckRowFork { index := ((i : Nat) : Int), sudoku_array := a } noFlags w = some w' ∧
      w'.out = w.out ++ List.replicate (missing (valuesAt a (rowCells i))).length
        (Line.diag Label.Row (((i : Nat) : Int) + 1))) ∧
    (∃ w', CheckColFork { index := ((i : Nat) : Int), sudoku_array := a } noFlags w = some w' ∧
      w'.out = w.out ++ List.replicate (missing (valuesAt a (colCells i))).length
        (Line.diag Label.Col (((i : Nat) : Int) + 1))) ∧
    (∃ w', CheckBoxFork { index := ((i : Nat) : Int), sudoku_array := a } noFlags w = some w' ∧
      w'.out = w.out ++ List.replicate (missing (valuesAt a (boxCells i))).length
        (Line.diag Label.Box (((i : Nat) : Int) + 1))) ∧
    (∀ cells ∈ [rowCells i, colCells i, boxCells i],
      ((valuesAt a cells).Perm digits → (missing (valuesAt a cells)).length = 0) ∧
      (¬ (valuesAt a cells).Perm digits →
        1 ≤ (missing (valuesAt a cells)).length ∧ (missing (valuesAt a cells)).length ≤ 8)) := by
  refine ⟨fork_lines a ha Checker.Row Checker.Col (fun _ => rfl) (fun _ => rfl) i w,
    fork_lines a ha Checker.Col Checker.Row (fun _ => rfl) (fun _ => rfl) i w,
    fork_lines a ha Checker.Box Checker.Box (fun _ => rfl) (fun _ => rfl) i w, ?_⟩
  intro cells hc
  simp only [List.mem_cons, List.mem_singleton, List.not_mem_nil, or_false] at hc
  rcases hc with rfl | rfl | rfl
  · exact missing_bounds a ha Checker.Col i
  · exact missing_bounds a ha Checker.Row i
  · exact missing_bounds a ha Checker.Box i

theorem C19_fork_diagnostics_witness :
    Filled dupGrid ∧
    ∃ w', CheckRowFork { index := 0, sudoku_array := dupGrid } noFlags
        { shared := { isValid := true, parentPID := 7 }, out := [] } = some w' ∧
      w'.out = [Line.diag Label.Row 1] := by
  obtain ⟨w', h1, h2⟩ := (C19_fork_diagnostics dupGrid (by decide) 0
      { shared := { isValid := true, parentPID := 7 }, out := [] }).1
  refine ⟨by decide, w', h1, ?_⟩
  rw [h2]
  decide

/-! ## The frame of a worker -/

theorem quiet_shared (w w' : World) (h : Quiet w w') :
    w'.shared.parentPID = w.shared.parentPID ∧
    (w'.shared = w.shared ∨ w'.shared = { w.shared with isValid := false }) := by
  obtain ⟨hmono, hpid, -⟩ := h
  refine ⟨hpid, ?_⟩
  cases hv' : w'.shared.isValid with
  | false =>
    right
    cases hs : w'.shared with
    | mk v p =>
      rw [hs] at hv' hpid
      simp only at hv' hpid
      rw [hv', hpid]
  | true =>
    left
    have hv : w.shared.isValid = true := by
      cases hb : w.shared.isValid with
      | true => rfl
      | false =>
        rw [hmono hb] at hv'
        cases hv'
    cases hs : w'.shared with
    | mk v p =>
      cases hs0 : w.shared with
      | mk v0 p0 =>
        rw [hs] at hv' hpid
        rw [hs0] at hv hpid
        simp only at hv' hpid hv
        rw [hv', hpid, hv]

/-- C14. Workers only write the verdict: whenever one of the six checkers
returns (any grid, index, initial flag content and shared result), the
`ThreadInfo` it was given, with every grid cell, is unchanged, `parentPID` is
unchanged, and the shared result is either untouched or differs only by
`isValid = false`; stdout is only extended. -/
theorem C14_workers_frame (k : Checker) (cF0 : Flags) (m m' : Mem) :
    (stepThread k m = some m' →
      (∀ r c, m'.info.sudoku_array r c = m.info.sudoku_array r c) ∧
      m'.info.index = m.info.index ∧
      m'.world.shared.parentPID = m.world.shared.parentPID ∧
      (m'.world.shared = m.world.shared ∨
        m'.world.shared = { m.world.shared with isValid := false }) ∧
      ∃ lines, m'.world.out = m.world.out ++ lines) ∧
    (stepFork k cF0 m = some m' →
      (∀ r c, m'.info.sudoku_array r c = m.info.sudoku_array r c) ∧
      m'.info.index = m.info.index ∧
      m'.world.shared.parentPID = m.world.shared.parentPID ∧
      (m'.world.shared = m.world.shared ∨
        m'.world.shared = { m.world.shared with isValid := false }) ∧
      ∃ lines, m'.world.out = m.world.out ++ lines) := by
  constructor
  · intro h
    obtain ⟨w', hw, rfl⟩ := Option.map_eq_some'.1 h
    have hq := runThread_quiet k m.info m.world w' hw
    obtain ⟨-, -, lines, hout, -⟩ := hq
    exact ⟨fun _ _ => rfl, rfl, (quiet_shared _ _ (runThread_quiet k m.info m.world w' hw)).1,
      (quiet_shared _ _ (runThread_quiet k m.info m.world w' hw)).2, lines, hout⟩
  · intro h
    obtain ⟨w', hw, rfl⟩ := Option.map_eq_some'.1 h
    have hq := runFork_quiet k m.info cF0 m.world w' hw
    obtain ⟨-, -, lines, hout, -⟩ := hq
    exact ⟨fun _ _ => rfl, rfl, (quiet_shared _ _ (runFork_quiet k m.info cF0 m.world w' hw)).1,
      (quiet_shared _ _ (runFork_quiet k m.info cF0 m.world w' hw)).2, lines, hout⟩

theorem C14_workers_frame_witness :
    ∃ m', stepThread Checker.Row
        { info := { index := 0, sudoku_array := dupGrid },
          world := { shared := { isValid := true, parentPID := 7 }, out := [] } } = some m' ∧
      m'.world.shared.parentPID = 7 ∧ m'.world.shared.isValid = false ∧
      ∀ r c, m'.info.sudoku_array r c = dupGrid r c := by
  have hrun : stepThread Checker.Row
      { info := { index := 0, sudoku_array := dupGrid },
        world := { shared := { isValid := true, parentPID := 7 }, out := [] } } =
      some { info := { index := 0, sudoku_array := dupGrid },
             world := { shared := { isValid := false, parentPID := 7 },
                        out := [Line.diag Label.Col 1] } } := by
    have h := runThread_some dupGrid Checker.Row 0
      { shared := { isValid := true, parentPID := 7 }, out := [] }
      (inRange_job dupGrid (by decide) Checker.Row 0)
    unfold stepThread
    simp only [h, Option.map_some']
    have hok : decide (Covers (vals dupGrid (jobReads Checker.Row 0))) = false := by decide
    rw [hok]
    rfl
  have h := (C14_workers_frame Checker.Row noFlags _ _).1 hrun
  exact ⟨_, hrun, h.2.2.1, rfl, h.1⟩

/-! ## Missing barrier and stale flags -/

/-- C11 (failing input). The parent does not wait.  In the original process
`StartProcesses` returns a world without any child's write; on the grid whose
first row starts 2 2 3 ... (flags zeroed), the parent that reaches the report
before a child has terminated prints `valid`, although the pool ends with
`isValid` false once all 27 children have terminated. -/
theorem C11_parent_does_not_wait :
    (StartProcesses 7 goodPids noFlags { index := 0, sudoku_array := dupGrid }
      { shared := { isValid := true, parentPID := 7 }, out := [Line.forking] }).map
      (fun p => (p.calls, p.ran, p.world)) =
      some (27, [], { shared := { isValid := true, parentPID := 7 }, out := [Line.forking] }) ∧
    parentReport 0 7 goodPids (fun _ => noFlags) dupGrid = some [Line.valid] ∧
    parentReport 27 7 goodPids (fun _ => noFlags) dupGrid = some [Line.notValid] ∧
    (processPool 7 goodPids (fun _ => noFlags) { index := 0, sudoku_array := dupGrid }
      { shared := { isValid := true, parentPID := 7 }, out := [Line.forking] }).map
      (fun w => w.shared.isValid) = some false := by
  decide

/-- C13 (failing input). The fork-mode verdict is not a function of the grid:
on the grid whose first row starts 2 2 3 ... the process pool ends with
`isValid` false when the uninitialised flags of the children are zero and with
`isValid` true when `cF[0]` is stale-set in them. -/
theorem C13_fork_verdict_depends_on_flags :
    (processPool 7 goodPids (fun _ => noFlags) { index := 0, sudoku_array := dupGrid }
      { shared := { isValid := true, parentPID := 7 }, out := [] }).map
      (fun w => w.shared.isValid) = some false ∧
    (processPool 7 goodPids (fun _ => staleFlag0) { index := 0, sudoku_array := dupGrid }
      { shared := { isValid := true, parentPID := 7 }, out := [] }).map
      (fun w => w.shared.isValid) = some true ∧
    CheckRowFork { index := 0, sudoku_array := dupGrid } noFlags
      { shared := { isValid := true, parentPID := 7 }, out := [] } ≠
    CheckRowFork { index := 0, sudoku_array := dupGrid } staleFlag0
      { shared := { isValid := true, parentPID := 7 }, out := [] } := by
  decide

/-! ## Failed worker creation -/

theorem createLoop_calls (created : Nat → Int) (jobs : List (Checker × Int)) (n : Nat) :
    (createLoop created jobs n).1 = n + jobs.length := by
  induction jobs generalizing n with
  | nil => rfl
  | cons job rest ih =>
    simp only [createLoop, ih, List.length_cons]
    omega

theorem createLoop_ok (created : Nat → Int) (hall : ∀ n, created n = 0)
    (jobs : List (Checker × Int)) (n : Nat) : (createLoop created jobs n).2 = jobs := by
  induction jobs generalizing n with
  | nil => rfl
  | cons job rest ih => simp only [createLoop, hall n, ↓reduceIte, ih]

theorem createLoop_sub (created : Nat → Int) (jobs : List (Checker × Int)) (n : Nat) :
    (createLoop created jobs n).2.length ≤ jobs.length := by
  induction jobs generalizing n with
  | nil => simp [createLoop]
  | cons job rest ih =>
    simp only [createLoop, List.length_cons]
    have := ih (n + 1)
    split
    · simp only [List.length_cons]
      omega
    · omega

theorem createLoop_fail (created : Nat → Int) (jobs : List (Checker × Int)) (n j : Nat)
    (hj : j < jobs.length) (hfail : created (n + j) ≠ 0) :
    (createLoop created jobs n).2.length < jobs.length := by
  induction jobs generalizing n j with
  | nil => simp at hj
  | cons job rest ih =>
    simp only [createLoop, List.length_cons]
    cases j with
    | zero =>
      simp only [Nat.add_zero] at hfail
      simp only [hfail, ↓reduceIte]
      have := createLoop_sub created rest (n + 1)
      omega
    | succ j =>
      have e : n + 1 + j = n + (j + 1) := by omega
      have hf2 : created (n + 1 + j) ≠ 0 := by
        rw [e]
        exact hfail
      have hlt := ih (n + 1) j (by simpa using hj) hf2
      split
      · simp only [List.length_cons]
        omega
      · omega

/-- C12 (counterexample). With `fork` returning -1 at its first call the parent
goes on: it makes all 27 `fork` calls, returns from `StartProcesses` and prints
a verdict line. -/
theorem C12_failed_fork_goes_on :
    failingPids 0 = -1 ∧
    (StartProcesses 7 failingPids noFlags { index := 0, sudoku_array := solved }
      { shared := { isValid := true, parentPID := 7 }, out := [Line.forking] }).map
      (fun p => (p.calls, p.exited)) = some (27, false) ∧
    mainFork 7 7 failingPids noFlags solved =
      some { shared := { isValid := true, parentPID := 7 },
             out := [Line.forking, Line.valid] } := by
  decide

/-- C12 (amended). Worker-creation failure is not detected.  The result of
`fork` is only compared with 0: a parent none of whose 27 calls returns 0,
whether they return pids or the failure value -1, makes all 27 calls, runs no
checker, returns from `StartProcesses` and prints exactly one verdict line.
The result of `pthread_create` is discarded: all 27 creations are attempted
whatever they return, the pool is `StartThreads` when all succeed, and a failed
creation makes the later join undefined (no verdict is defined). -/
theorem C12_creation_failure_unchecked (pid : Int) (forks : Nat → Int) (cF0 : Flags)
    (grid : Grid) (created : Nat → Int) (info : ThreadInfo) (w : World)
    (hall : ∀ m, m < 27 → forks m ≠ 0) :
    (∃ p, StartProcesses pid forks cF0 { index := 0, sudoku_array := grid }
        { shared := { isValid := true, parentPID := pid }, out := [Line.forking] } = some p ∧
      p.calls = 27 ∧ p.ran = [] ∧ p.exited = false) ∧
    (∃ w' line, mainFork pid pid forks cF0 grid = some w' ∧
      w'.out = [Line.forking, line] ∧ (line = Line.valid ∨ line = Line.notValid)) ∧
    (createLoop created threadJobs 0).1 = 27 ∧
    ((∀ n, created n = 0) → StartThreadsWith created info w = StartThreads info w) ∧
    (∀ j, j < 27 → created j ≠ 0 → StartThreadsWith created info w = none) := by
  obtain ⟨par, -, hp⟩ := StartProcesses_parent pid forks cF0
    { index := 0, sudoku_array := grid }
    { shared := { isValid := true, parentPID := pid }, out := [Line.forking] } hall
  refine ⟨⟨_, hp, rfl, rfl, rfl⟩, ?_, ?_, ?_, ?_⟩
  · refine ⟨{ shared := { isValid := true, parentPID := pid },
              out := [Line.forking, Line.valid] }, Line.valid, ?_, rfl, Or.inl rfl⟩
    unfold mainFork
    rw [hp]
    simp [endOfMain, procInit, report]
  · rw [createLoop_calls]
    rfl
  · intro hok
    unfold StartThreadsWith
    rw [createLoop_ok created hok]
    simp [StartThreads]
  · intro j hj hfail
    unfold StartThreadsWith
    have hlt := createLoop_fail created threadJobs 0 j (by simpa using hj)
      (by rw [Nat.zero_add]; exact hfail)
    rw [if_neg (by omega)]

theorem C12_creation_failure_unchecked_witness :
    failingPids 0 = -1 ∧ (∀ m, m < 27 → failingPids m ≠ 0) ∧
    ∃ w' line, mainFork 7 7 failingPids noFlags solved = some w' ∧
      w'.out = [Line.forking, line] ∧ (line = Line.valid ∨ line = Line.notValid) :=
  have hall : ∀ m, m < 27 → failingPids m ≠ 0 := fun m _ => by
    unfold failingPids
    split <;> omega
  ⟨rfl, hall,
    (C12_creation_failure_unchecked 7 failingPids noFlags solved (fun _ => 0)
      { index := 0, sudoku_array := solved }
      { shared := { isValid := true, parentPID := 7 }, out := [] } hall).2.1⟩

/-! ## Values outside 1..9: the stray write and the verdict -/

theorem marked_bad (cF : Flags) (v : Int) (h : v < 1 ∨ 9 < v) : marked cF [v] = cF := by
  funext j
  have hj := j.isLt
  have hne : ¬ ((j : Nat) : Int) + 1 = v := by omega
  simp [marked, hne]

theorem setFlagStray_eq (cF : Flags) (log : List Int) (v : Int) :
    setFlagStray (cF, log) (v - 1) = (marked cF [v], log ++ strayOf [v]) := by
  unfold setFlagStray
  by_cases h : 1 ≤ v ∧ v ≤ 9
  · have hs : strayOf [v] = [] := by
      have : ¬ (v < 1 ∨ 9 < v) := by omega
      simp [strayOf, this]
    simp only [setFlag_eq cF v h.1 h.2, hs, List.append_nil]
  · have hbad : v < 1 ∨ 9 < v := by omega
    have hs : strayOf [v] = [v - 1] := by simp [strayOf, hbad]
    simp only [setFlag_none cF v hbad, marked_bad cF v hbad, hs]

theorem strayOf_append (l1 l2 : List Int) : strayOf (l1 ++ l2) = strayOf l1 ++ strayOf l2 := by
  simp [strayOf]

theorem markCellsStray_eq (a : Grid) (reads : List (Int × Int)) (cF : Flags) (log : List Int)
    (h : AllRead a reads) :
    markCellsStray a reads (cF, log) =
      some (marked cF (vals a reads), log ++ strayOf (vals a reads)) := by
  induction reads generalizing cF log with
  | nil => simp [markCellsStray, vals, marked_nil, strayOf]
  | cons rc rest ih =>
    obtain ⟨v, hv⟩ := h rc (List.mem_cons_self _ _)
    have hrest : AllRead a rest := fun x hx => h x (List.mem_cons_of_mem _ hx)
    have hvals : vals a (rc :: rest) = [v] ++ vals a rest := by
      simp [vals, List.filterMap_cons, hv]
    simp only [markCellsStray, markCellStray, hv, Option.map_some', Option.some_bind,
      setFlagStray_eq]
    rw [ih _ _ hrest, marked_marked, hvals, strayOf_append, List.append_assoc]

theorem markCellsStray_of_checked (a : Grid) (reads : List (Int × Int)) (cF cF' : Flags)
    (log : List Int) (h : markCells a reads cF = some cF') :
    markCellsStray a reads (cF, log) = some (cF', log) := by
  induction reads generalizing cF log with
  | nil =>
    simp only [markCells, Option.some.injEq] at h
    subst h
    rfl
  | cons rc rest ih =>
    simp only [markCells] at h
    obtain ⟨cF1, h1, h2⟩ := Option.bind_eq_some.1 h
    simp only [markCell] at h1
    obtain ⟨v, hv, hset⟩ := Option.bind_eq_some.1 h1
    simp only [markCellsStray, markCellStray, hv, Option.map_some', Option.some_bind,
      setFlagStray, hset]
    exact ih cF1 log h2

theorem allRead_toInts (a : Grid) (cs : List (Fin 9 × Fin 9)) : AllRead a (cs.map toInts) := by
  intro rc hrc
  obtain ⟨x, _, rfl⟩ := List.mem_map.1 hrc
  exact ⟨a x.1 x.2, readCell_fin a x.1 x.2⟩

theorem allRead_job (a : Grid) (k : Checker) (i : Fin 9) :
    AllRead a (jobReads k ((i : Nat) : Int)) := by
  rcases jobReads_eq k i with h | h
  · rw [h]
    exact allRead_toInts a _
  · rw [h, ← List.map_append]
    exact allRead_toInts a _

theorem runThreadStray_eq (a : Grid) (k : Checker) (i : Int) (w : World)
    (h : AllRead a (jobReads k i)) :
    runThreadStray k { index := i, sudoku_array := a } w =
      some (settle (jobOK a (k, i)) (jobLine (k, i)) w, strayOf (vals a (jobReads k i))) := by
  have hm := markCellsStray_eq a (jobReads k i) noFlags [] h
  have hj : judge (marked noFlags (vals a (jobReads k i))) (jobLabel k) i w =
      settle (jobOK a (k, i)) (jobLine (k, i)) w := by
    rw [judge_eq]
    simp only [jobOK, jobLine]
    congr 1
    exact decide_eq_decide.2 (all_marked_iff _)
  cases k
  · simp only [runThreadStray, CheckRowStray]
    simp only [jobReads] at hm hj
    rw [hm]
    simp only [Option.map_some', List.nil_append]
    rw [← hj]
    rfl
  · simp only [runThreadStray, CheckColStray]
    simp only [jobReads] at hm hj
    rw [hm]
    simp only [Option.map_some', List.nil_append]
    rw [← hj]
    rfl
  · simp only [runThreadStray, CheckBoxStray]
    simp only [jobReads] at hm hj
    rw [hm]
    simp only [Option.map_some', List.nil_append]
    rw [← hj]
    rfl

theorem runJobsStray_eq (a : Grid) (x : Int) (jobs : List (Checker × Int)) (w : World)
    (log : List Int) (h : ∀ job ∈ jobs, AllRead a (jobReads job.1 job.2)) :
    runJobsStray { index := x, sudoku_array := a } jobs (w, log) =
      some ({ shared := { isValid := w.shared.isValid && jobs.all (jobOK a),
                          parentPID := w.shared.parentPID },
              out := w.out ++ jobs.flatMap
                (fun job => if jobOK a job then [] else [jobLine job]) },
            log ++ jobs.flatMap (fun job => strayOf (vals a (jobReads job.1 job.2)))) := by
  induction jobs generalizing w log with
  | nil => simp [runJobsStray]
  | cons job rest ih =>
    obtain ⟨k, i⟩ := job
    have hk := h (k, i) (List.mem_cons_self _ _)
    have hrest : ∀ job ∈ rest, AllRead a (jobReads job.1 job.2) :=
      fun j hj => h j (List.mem_cons_of_mem _ hj)
    simp only [runJobsStray, runThreadStray_eq a k i w hk, Option.some_bind]
    rw [ih _ _ hrest]
    by_cases hok : jobOK a (k, i) = true
    · simp [settle, hok, List.append_assoc]
    · simp [settle, hok, List.append_assoc]

theorem mem_cells_col : ∀ r c : Fin 9, (r, c) ∈ colCells c := by decide

theorem mem_cells_row : ∀ r c : Fin 9, (r, c) ∈ rowCells r := by decide

theorem mem_cells_box : ∀ r c : Fin 9, (r, c) ∈ boxCells (boxIndex r c) := by decide

theorem jobOK_bad (a : Grid) (k : Checker) (i r c : Fin 9) (h : a r c < 1 ∨ 9 < a r c)
    (hmem : (r, c) ∈ jobCells k i) : jobOK a (k, ((i : Nat) : Int)) = false := by
  cases hb : jobOK a (k, ((i : Nat) : Int)) with
  | false => rfl
  | true =>
    have hp := (jobOK_iff_perm a k i).1 hb
    have hv : a r c ∈ valuesAt a (jobCells k i) := List.mem_map.2 ⟨(r, c), hmem, rfl⟩
    have hd : a r c ∈ digits := hp.subset hv
    simp only [digits, List.mem_cons, List.mem_singleton, List.not_mem_nil, or_false] at hd
    omega

theorem stray_mem (a : Grid) (k : Checker) (i r c : Fin 9) (h : a r c < 1 ∨ 9 < a r c)
    (hmem : (r, c) ∈ jobCells k i) :
    a r c - 1 ∈ strayOf (vals a (jobReads k ((i : Nat) : Int))) := by
  have hv : a r c ∈ vals a (jobReads k ((i : Nat) : Int)) :=
    (mem_vals_job a k i (a r c)).2 (List.mem_map.2 ⟨(r, c), hmem, rfl⟩)
  unfold strayOf
  exact List.mem_map.2 ⟨a r c, List.mem_filter.2 ⟨hv, by simpa using h⟩, rfl⟩

theorem strayOf_inRange (a : Grid) (reads : List (Int × Int)) (h : InRange a reads) :
    strayOf (vals a reads) = [] := by
  unfold strayOf
  rw [List.map_eq_nil_iff, List.filter_eq_nil_iff]
  intro v hv
  obtain ⟨rc, hrc, hread⟩ := List.mem_filterMap.1 hv
  obtain ⟨v', hv', h1, h9⟩ := h rc hrc
  rw [hv'] at hread
  cases hread
  simp only [decide_eq_true_eq]
  omega

theorem stray_agrees (a : Grid) (ha : Filled a) (x : Int) (w : World) :
    StartThreadsStray { index := x, sudoku_array := a } w =
      (StartThreads { index := x, sudoku_array := a } w).map (fun w' => (w', [])) := by
  have hin := inRange_of_mem a ha threadJobs (fun _ h => h)
  have hall : ∀ job ∈ threadJobs, AllRead a (jobReads job.1 job.2) := by
    intro job hj rc hrc
    obtain ⟨v, hv, -⟩ := hin job hj rc hrc
    exact ⟨v, hv⟩
  rw [StartThreadsStray, StartThreads, runJobsStray_eq a x threadJobs w [] hall,
    runJobs_some a x threadJobs w hin]
  simp only [Option.map_some', List.nil_append, Option.some.injEq, Prod.mk.injEq, true_and]
  rw [List.flatMap_eq_nil_iff]
  intro job hj
  exact strayOf_inRange a _ (hin job hj)

theorem checker_stray (a : Grid) (k : Checker) (i r c : Fin 9) (h : a r c < 1 ∨ 9 < a r c)
    (hmem : (r, c) ∈ jobCells k i) (w : World) :
    ∃ w' strays, runThreadStray k { index := ((i : Nat) : Int), sudoku_array := a } w =
        some (w', strays) ∧
      a r c - 1 ∈ strays ∧ w'.shared.isValid = false ∧
      w'.out = w.out ++ [Line.diag (jobLabel k) (((i : Nat) : Int) + 1)] := by
  refine ⟨_, _, runThreadStray_eq a k _ w (allRead_job a k i), stray_mem a k i r c h hmem, ?_, ?_⟩
  · simp [settle, jobOK_bad a k i r c h hmem]
  · simp [settle, jobOK_bad a k i r c h hmem, jobLine]

/-- C5 (counterexample). With the value 0 in cell (0, 0) the validation does
not complete without an out-of-bounds flag access: `CheckRow` on index 0 writes
`cF[-1]`, and the pool makes three such writes (column 0, row 0, box 0).  The
verdict is nevertheless false. -/
theorem C5_zero_cell_stray_write :
    zeroGrid 0 0 = 0 ∧
    CheckRowStray { index := 0, sudoku_array := zeroGrid }
      { shared := { isValid := true, parentPID := 7 }, out := [] } =
      some ({ shared := { isValid := false, parentPID := 7 },
              out := [Line.diag Label.Col 1] }, [-1]) ∧
    (StartThreadsStray { index := 0, sudoku_array := zeroGrid }
      { shared := { isValid := true, parentPID := 7 }, out := [] }).map
      (fun res => (res.1.shared.isValid, res.2)) = some (false, [-1, -1, -1]) := by
  decide

/-- C5 (amended). Out-of-range values are not bounds-checked but still fail the
group.  When some cell holds a value v outside 1..9, every thread checker
whose group contains the cell (`CheckRow` on its column, `CheckCol` on its
row, `CheckBox` on its box) writes the flag array at index v-1, outside
`cF[0..8]`; that write sets none of the nine flags, so in a run that goes on
after the stray write the checker finds an unset flag, sets `isValid = false`
and prints its line, and the verdict of the threaded pool is false. -/
theorem C5_out_of_range_stray (a : Grid) (r c : Fin 9) (h : a r c < 1 ∨ 9 < a r c)
    (x : Int) (w : World) :
    ¬ (0 ≤ a r c - 1 ∧ a r c - 1 ≤ 8) ∧
    (∃ w' strays, CheckRowStray { index := ((c : Nat) : Int), sudoku_array := a } w =
        some (w', strays) ∧
      a r c - 1 ∈ strays ∧ w'.shared.isValid = false ∧
      w'.out = w.out ++ [Line.diag Label.Col (((c : Nat) : Int) + 1)]) ∧
    (∃ w' strays, CheckColStray { index := ((r : Nat) : Int), sudoku_array := a } w =
        some (w', strays) ∧
      a r c - 1 ∈ strays ∧ w'.shared.isValid = false ∧
      w'.out = w.out ++ [Line.diag Label.Row (((r : Nat) : Int) + 1)]) ∧
    (inBox (boxIndex r c) (r, c) ∧
      ∃ w' strays, CheckBoxStray
          { index := (((boxIndex r c : Fin 9) : Nat) : Int), sudoku_array := a } w =
          some (w', strays) ∧
        a r c - 1 ∈ strays ∧ w'.shared.isValid = false ∧
        w'.out = w.out ++ [Line.diag Label.Box ((((boxIndex r c : Fin 9) : Nat) : Int) + 1)]) ∧
    (∃ w' strays, StartThreadsStray { index := x, sudoku_array := a } w = some (w', strays) ∧
      a r c - 1 ∈ strays ∧ w'.shared.isValid = false ∧
      Line.diag Label.Col (((c : Nat) : Int) + 1) ∈ w'.out ∧
      Line.diag Label.Row (((r : Nat) : Int) + 1) ∈ w'.out ∧
      Line.diag Label.Box ((((boxIndex r c : Fin 9) : Nat) : Int) + 1) ∈ w'.out) := by
  refine ⟨by omega, checker_stray a Checker.Row c r c h (mem_cells_col r c) w,
    checker_stray a Checker.Col r r c h (mem_cells_row r c) w,
    ⟨(mem_reads_box r c).2,
      checker_stray a Checker.Box (boxIndex r c) r c h (mem_cells_box r c) w⟩, ?_⟩
  have hall : ∀ job ∈ threadJobs, AllRead a (jobReads job.1 job.2) := by
    intro job hj
    obtain ⟨i, hi⟩ := threadJobs_index job hj
    rw [hi]
    exact allRead_job a job.1 i
  have hline : ∀ (k : Checker) (i : Fin 9), (k, ((i : Nat) : Int)) ∈ threadJobs →
      (r, c) ∈ jobCells k i →
      Line.diag (jobLabel k) (((i : Nat) : Int) + 1) ∈
        w.out ++ threadJobs.flatMap (fun job => if jobOK a job then [] else [jobLine job]) := by
    intro k i hj hmem
    apply List.mem_append_right
    rw [List.mem_flatMap]
    exact ⟨(k, ((i : Nat) : Int)), hj, by simp [jobOK_bad a k i r c h hmem, jobLine]⟩
  refine ⟨_, _, runJobsStray_eq a x threadJobs w [] hall, ?_, ?_,
    hline Checker.Row c (threadJobs_all c).1 (mem_cells_col r c),
    hline Checker.Col r (threadJobs_all r).2.1 (mem_cells_row r c),
    hline Checker.Box (boxIndex r c) (threadJobs_all _).2.2 (mem_cells_box r c)⟩
  · rw [List.nil_append, List.mem_flatMap]
    exact ⟨(Checker.Row, ((c : Nat) : Int)), (threadJobs_all c).1,
      stray_mem a Checker.Row c r c h (mem_cells_col r c)⟩
  · have hfalse : threadJobs.all (jobOK a) = false := by
      rw [List.all_eq_false]
      exact ⟨(Checker.Row, ((c : Nat) : Int)), (threadJobs_all c).1,
        by simp [jobOK_bad a Checker.Row c r c h (mem_cells_col r c)]⟩
    simp [hfalse]

theorem C5_out_of_range_stray_witness :
    (tenGrid 4 4 < 1 ∨ 9 < tenGrid 4 4) ∧
    ∃ w' strays, StartThreadsStray { index := 0, sudoku_array := tenGrid }
        { shared := { isValid := true, parentPID := 7 }, out := [] } = some (w', strays) ∧
      tenGrid 4 4 - 1 ∈ strays ∧ w'.shared.isValid = false := by
  obtain ⟨w', strays, h1, h2, h3, -⟩ :=
    (C5_out_of_range_stray tenGrid 4 4 (by decide) 0
      { shared := { isValid := true, parentPID := 7 }, out := [] }).2.2.2.2
  exact ⟨by decide, w', strays, h1, h2, h3⟩

/-! ## The report, once and by the owner -/

theorem verdictLines_append (l1 l2 : List Line) :
    verdictLines (l1 ++ l2) = verdictLines l1 + verdictLines l2 := by
  simp only [verdictLines, List.count_append]
  omega

theorem verdictLines_diag (lines : List Line) (h : ∀ l ∈ lines, ∃ lab n, l = Line.diag lab n) :
    verdictLines lines = 0 := by
  have h1 : lines.count Line.valid = 0 := by
    rw [List.count_eq_zero]
    intro hmem
    obtain ⟨lab, n, hl⟩ := h _ hmem
    cases hl
  have h2 : lines.count Line.notValid = 0 := by
    rw [List.count_eq_zero]
    intro hmem
    obtain ⟨lab, n, hl⟩ := h _ hmem
    cases hl
  simp only [verdictLines, h1, h2]

theorem verdictLines_report (p : Int) (s : SharedResult) :
    verdictLines (report p s) = if p = s.parentPID then 1 else 0 := by
  by_cases h : p = s.parentPID
  · cases hv : s.isValid <;> simp [report, h, hv, verdictLines]
  · simp [report, h, verdictLines]

theorem slot_box (j : Nat) (hj : 18 ≤ j) : decide ((slot j).1 = Checker.Box) = true := by
  have h9 : ¬ j < 9 := by omega
  have h18 : ¬ j < 18 := by omega
  simp [slot, h9, h18]

theorem mainFork_box_child (pid self : Int) (pids : Nat → Int) (cF0 : Flags) (a : Grid)
    (j : Nat) (w' : World) (hj : 18 ≤ j) (hj2 : j < 27)
    (hpids : ∀ m, m < j → pids m ≠ 0)
    (h : mainFork pid self (childForks pids j) cF0 a = some w') :
    ∃ lines, w'.out = [Line.forking] ++ lines ∧ ∀ l ∈ lines, ∃ lab n, l = Line.diag lab n := by
  unfold mainFork at h
  rw [StartProcesses_child pid (childForks pids j) cF0 _ _ j hj2
    (fun m hm => by rw [childForks_before pids j m hm]; exact hpids m hm)
    (childForks_self pids j)] at h
  obtain ⟨p, hp, rfl⟩ := Option.map_eq_some'.1 h
  obtain ⟨w1, hw1, rfl⟩ := Option.map_eq_some'.1 hp
  obtain ⟨-, -, lines, hout, hlines⟩ := runFork_quiet _ _ _ _ _ hw1
  refine ⟨lines, ?_, hlines⟩
  simp only [endOfMain, childAfter, slot_box j hj, ↓reduceIte]
  rw [hout]
  rfl

theorem mainFork_owner (pid : Int) (forks : Nat → Int) (cF0 : Flags) (a : Grid)
    (hall : ∀ m, m < 27 → forks m ≠ 0) :
    mainFork pid pid forks cF0 a =
      some { shared := { isValid := true, parentPID := pid },
             out := [Line.forking] ++ report pid { isValid := true, parentPID := pid } } := by
  obtain ⟨par, -, hp⟩ := StartProcesses_parent pid forks cF0
    { index := 0, sudoku_array := a }
    { shared := { isValid := true, parentPID := pid }, out := [Line.forking] } hall
  unfold mainFork
  rw [hp]
  simp [endOfMain, procInit]

theorem mainThreads_out (pid : Int) (a : Grid) (w' : World) (h : mainThreads pid a = some w') :
    w'.shared.parentPID = pid ∧
    ∃ lines, (∀ l ∈ lines, ∃ lab n, l = Line.diag lab n) ∧
      w'.out = [Line.threading] ++ lines ++ report pid w'.shared := by
  unfold mainThreads at h
  obtain ⟨w1, hw1, rfl⟩ := Option.map_eq_some'.1 h
  obtain ⟨-, hpid, lines, hout, hlines⟩ := runJobs_quiet _ threadJobs _ w1 hw1
  exact ⟨hpid, lines, hlines, by simp only [hout]⟩

/-- C10. The final report is made exactly once, by the owner.  The reporting
step run by process `p` on shared result `s` prints exactly one verdict line
when `p = s.parentPID` (`valid` iff `s.isValid`) and nothing otherwise.  In
fork mode the original process ends `main` with exactly one verdict line, a
child of the row or column loop, which returns into `main` with its own pid,
prints none, and a child of the box loop exits before the report.  In thread
mode `main` ends with exactly one verdict line, the last line of its output,
`valid` iff `isValid` is true. -/
theorem C10_report_once (p : Int) (s : SharedResult) :
    (p = s.parentPID →
      report p s = [if s.isValid = true then Line.valid else Line.notValid]) ∧
    (p ≠ s.parentPID → report p s = []) ∧
    (∀ (pids : Nat → Int) (cF0 : Flags) (a : Grid) (j : Nat) (w' : World),
      j < 18 → p ≠ s.parentPID → (∀ m, m < j → pids m ≠ 0) →
      mainFork s.parentPID p (childForks pids j) cF0 a = some w' →
      Line.valid ∉ w'.out ∧ Line.notValid ∉ w'.out) ∧
    (∀ (pids : Nat → Int) (cF0 : Flags) (a : Grid) (j : Nat) (w' : World),
      18 ≤ j → j < 27 → (∀ m, m < j → pids m ≠ 0) →
      mainFork s.parentPID p (childForks pids j) cF0 a = some w' →
      verdictLines w'.out = 0) ∧
    (∀ (forks : Nat → Int) (cF0 : Flags) (a : Grid), (∀ m, m < 27 → forks m ≠ 0) →
      ∃ w', mainFork p p forks cF0 a = some w' ∧ w'.shared.parentPID = p ∧
        w'.out = [Line.forking,
          if w'.shared.isValid = true then Line.valid else Line.notValid] ∧
        verdictLines w'.out = 1) ∧
    (∀ (a : Grid) (w' : World), mainThreads p a = some w' →
      w'.shared.parentPID = p ∧ verdictLines w'.out = 1 ∧
      ∃ lines, (∀ l ∈ lines, ∃ lab n, l = Line.diag lab n) ∧
        w'.out = [Line.threading] ++ lines ++
          [if w'.shared.isValid = true then Line.valid else Line.notValid]) ∧
    (∀ (a : Grid), Filled a → ∃ w', mainThreads p a = some w') := by
  refine ⟨fun h => ?_, fun h => ?_, ?_, ?_, ?_, ?_, ?_⟩
  · cases hv : s.isValid <;> simp [report, h, hv]
  · simp [report, h]
  · intro pids cF0 a j w' hj hp hpids h
    obtain ⟨lines, hout, hlines⟩ := mainFork_child s.parentPID p pids cF0 a j w' hj hp hpids h
    rw [hout]
    constructor
    · intro hmem
      rcases List.mem_append.1 hmem with h1 | h1
      · simp at h1
      · obtain ⟨lab, n, hl⟩ := hlines _ h1
        cases hl
    · intro hmem
      rcases List.mem_append.1 hmem with h1 | h1
      · simp at h1
      · obtain ⟨lab, n, hl⟩ := hlines _ h1
        cases hl
  · intro pids cF0 a j w' hj hj2 hpids h
    obtain ⟨lines, hout, hlines⟩ :=
      mainFork_box_child s.parentPID p pids cF0 a j w' hj hj2 hpids h
    rw [hout, verdictLines_append, verdictLines_diag lines hlines]
    rfl
  · intro forks cF0 a hall
    refine ⟨_, mainFork_owner p forks cF0 a hall, rfl, ?_, ?_⟩
    · simp [report]
    · simp [report, verdictLines]
  · intro a w' h
    obtain ⟨hpid, lines, hlines, hout⟩ := mainThreads_out p a w' h
    have hrep : report p w'.shared =
        [if w'.shared.isValid = true then Line.valid else Line.notValid] := by
      cases hv : w'.shared.isValid <;> simp [report, hpid, hv]
    refine ⟨hpid, ?_, lines, hlines, by rw [hout, hrep]⟩
    rw [hout, verdictLines_append, verdictLines_append, verdictLines_diag lines hlines,
      verdictLines_report, if_pos hpid.symm]
    rfl
  · intro a ha
    obtain ⟨w1, hw1⟩ : ∃ w1, StartThreads { index := 0, sudoku_array := a }
        { shared := { isValid := true, parentPID := p }, out := [Line.threading] } = some w1 :=
      ⟨_, runJobs_some a 0 threadJobs _ (inRange_of_mem a ha _ (fun _ h => h))⟩
    refine ⟨{ w1 with out := w1.out ++ report p w1.shared }, ?_⟩
    simp only [mainThreads, hw1, Option.map_some']

theorem C10_report_once_witness :
    report 7 { isValid := false, parentPID := 7 } = [Line.notValid] ∧
    report 8 { isValid := false, parentPID := 7 } = [] ∧
    mainFork 7 8 (childForks goodPids 0) noFlags dupGrid =
      some { shared := { isValid := false, parentPID := 7 },
             out := [Line.forking, Line.diag Label.Row 1] } ∧
    Line.notValid ∉ [Line.forking, Line.diag Label.Row 1] ∧
    (∃ w', mainFork 7 7 goodPids noFlags solved = some w' ∧ verdictLines w'.out = 1) ∧
    mainThreads 7 dupGrid =
      some { shared := { isValid := false, parentPID := 7 },
             out := [Line.threading, Line.diag Label.Col 1, Line.diag Label.Row 1,
                     Line.diag Label.Box 1, Line.notValid] } ∧
    verdictLines [Line.threading, Line.diag Label.Col 1, Line.diag Label.Row 1,
      Line.diag Label.Box 1, Line.notValid] = 1 := by
  have h := C10_report_once 8 { isValid := false, parentPID := 7 }
  have h7 := C10_report_once 7 { isValid := false, parentPID := 7 }
  have hm : mainFork 7 8 (childForks goodPids 0) noFlags dupGrid =
      some { shared := { isValid := false, parentPID := 7 },
             out := [Line.forking, Line.diag Label.Row 1] } := by decide
  have ht : mainThreads 7 dupGrid =
      some { shared := { isValid := false, parentPID := 7 },
             out := [Line.threading, Line.diag Label.Col 1, Line.diag Label.Row 1,
                     Line.diag Label.Box 1, Line.notValid] } := by decide
  obtain ⟨w', hw', -, -, hone⟩ := h7.2.2.2.2.1 goodPids noFlags solved
    (fun m _ => by simp only [goodPids]; omega)
  exact ⟨h7.1 rfl, h.2.1 (by decide), hm,
    (h.2.2.1 goodPids noFlags dupGrid 0 _ (by decide) (by decide)
      (fun m hm => absurd hm (Nat.not_lt_zero m)) hm).2,
    ⟨w', hw', hone⟩, ht, (h7.2.2.2.2.2.1 dupGrid _ ht).2.1⟩

end Sudoku
